import Mathlib

/-! # MemoryTracer (HS_Leak.cpp): a shallow embedding

The allocation tracer of `src/src/HS_Leak.cpp` is embedded as pure functions:

* `StackTraceInfo` with `operator==`, `operator<`, `CalculateHash`, `Capture`;
* `std::map` as a key-sorted association list driven only by the comparator;
* the session controller (`Start`, `End`, `RecordAllocation`,
  `RecordDeallocation`) as functions on an explicit `MemoryTracer` state;
* `GenerateLeakReport` as aggregation, sorting and text rendering.

Machine integers are natural numbers, reduced modulo `2^64` where the C++ code
can wrap. Pointers are the natural numbers of their address values.
-/

namespace HSLL
namespace Utils

/-! ## StackTraceInfo -/

/-- The constant `StackTraceInfo::MAX_STACK_DEPTH`. -/
def MAX_STACK_DEPTH : Nat := 62

/-- The class `StackTraceInfo`: `m_aFrames` lists the slots of the frame array
from index 0; a slot that the list does not reach holds `nullptr` (address 0),
which is what the constructor writes into every slot. -/
structure StackTraceInfo where
  m_uHash : Nat
  m_uCount : Nat
  m_aFrames : List Nat
deriving DecidableEq

namespace StackTraceInfo

/-- The default constructor: count 0, hash 0, every slot `nullptr`. -/
def ctor : StackTraceInfo :=
  { m_uHash := 0, m_uCount := 0, m_aFrames := List.replicate MAX_STACK_DEPTH 0 }

/-- The value read by `m_aFrames[i]`. -/
def frame (x : StackTraceInfo) (i : Nat) : Nat := x.m_aFrames.getD i 0

/-- The `for` loop of `operator==`, with `n` iterations left at index `i`. -/
def eqLoop (x y : StackTraceInfo) : Nat → Nat → Bool
  | 0, _ => true
  | n + 1, i => if x.frame i != y.frame i then false else eqLoop x y n (i + 1)

/-- The member `operator==`. -/
def operator_eq (x oOther : StackTraceInfo) : Bool :=
  if x.m_uHash != oOther.m_uHash then false
  else if x.m_uCount != oOther.m_uCount then false
  else eqLoop x oOther x.m_uCount 0

/-- The `for` loop of `operator<`, with `n` iterations left at index `i`. -/
def ltLoop (x y : StackTraceInfo) : Nat → Nat → Bool
  | 0, _ => false
  | n + 1, i =>
    if x.frame i != y.frame i then decide (x.frame i < y.frame i)
    else ltLoop x y n (i + 1)

/-- The member `operator<`. -/
def operator_lt (x oOther : StackTraceInfo) : Bool :=
  if x.m_uHash != oOther.m_uHash then decide (x.m_uHash < oOther.m_uHash)
  else if x.m_uCount != oOther.m_uCount then decide (x.m_uCount < oOther.m_uCount)
  else ltLoop x oOther x.m_uCount 0

end StackTraceInfo

/-! ## StackTraceCapturer -/

namespace StackTraceCapturer

/-- The loop of `CalculateHash`, with `n` iterations left at index `i` and the
running value `uHash` (a `uint64_t`: each product is reduced modulo `2^64`). -/
def hashLoop (aFrames : List Nat) : Nat → Nat → Nat → Nat
  | 0, _, uHash => uHash
  | n + 1, i, uHash =>
    let frameValue := aFrames.getD i 0
    let h1 := uHash ^^^ ((frameValue >>> 32) &&& 0xFFFFFFFF)
    let h2 := (h1 * 1099511628211) % 2 ^ 64
    let h3 := h2 ^^^ (frameValue &&& 0xFFFFFFFF)
    let h4 := (h3 * 1099511628211) % 2 ^ 64
    hashLoop aFrames n (i + 1) h4

/-- The static function `CalculateHash(aFrames, uCount)`. -/
def CalculateHash (aFrames : List Nat) (uCount : Nat) : Nat :=
  hashLoop aFrames uCount 0 14695981039346656037

/-- The static function `Capture`. The platform unwinder is not part of the
repository: `callStack` is the list of return addresses of the calling context,
of which the unwinder stores the first `MAX_STACK_DEPTH` into the frame array
and returns how many it stored. -/
def Capture (callStack : List Nat) : StackTraceInfo :=
  let oInfo := StackTraceInfo.ctor
  let uCount := min callStack.length MAX_STACK_DEPTH
  let aFrames := callStack.take MAX_STACK_DEPTH ++ oInfo.m_aFrames.drop uCount
  { m_uHash := CalculateHash aFrames uCount, m_uCount := uCount, m_aFrames := aFrames }

end StackTraceCapturer

/-! ## Records and groups -/

/-- The struct `AllocationInfo`. -/
structure AllocationInfo where
  m_uSize : Nat
  m_stStackTrace : StackTraceInfo
deriving DecidableEq

/-- The struct `LeakGroup`. -/
structure LeakGroup where
  m_uCount : Nat
  m_uTotalSize : Nat
  m_stStackTrace : StackTraceInfo
deriving DecidableEq

/-- A value-initialised `LeakGroup`, as `std::map::operator[]` creates it. -/
def LeakGroup.ctor : LeakGroup :=
  { m_uCount := 0, m_uTotalSize := 0, m_stStackTrace := StackTraceInfo.ctor }

/-! ## std::map as a key-sorted association list

Only the comparator `lt` is ever applied to keys, as in `std::map`: two keys
are the same key when neither is less than the other. -/

namespace StdMap

/-- The member `find`: the mapped value of the entry whose key is equivalent to `k`. -/
def find {K V : Type} (lt : K → K → Bool) : List (K × V) → K → Option V
  | [], _ => none
  | (k1, v) :: rest, k =>
    if lt k k1 then none
    else if lt k1 k then find lt rest k
    else some v

/-- The member `operator[]` followed by an update of the referenced value: the
entry for `k` is created with the value `dflt` when absent, and `f` is applied
to the mapped value. An existing entry keeps its own key object. -/
def update {K V : Type} (lt : K → K → Bool) (dflt : V) (f : V → V) :
    List (K × V) → K → List (K × V)
  | [], k => [(k, f dflt)]
  | (k1, v) :: rest, k =>
    if lt k k1 then (k, f dflt) :: (k1, v) :: rest
    else if lt k1 k then (k1, v) :: update lt dflt f rest k
    else (k1, f v) :: rest

/-- The member `erase` at the position returned by `find`; nothing is erased
when `find` returns `end()`. -/
def erase {K V : Type} (lt : K → K → Bool) : List (K × V) → K → List (K × V)
  | [], _ => []
  | (k1, v) :: rest, k =>
    if lt k k1 then (k1, v) :: rest
    else if lt k1 k then (k1, v) :: erase lt rest k
    else rest

end StdMap

/-- The comparator `std::less<void*>` of the registry. -/
def ptrLess (a b : Nat) : Bool := decide (a < b)

/-! ## The session controller -/

/-- The state of the tracer as one thread sees it: the atomic flag
`m_bTracingActive`, the registry `m_mapAllocations` and the thread-local guard
`m_bTracingEnabled`. -/
structure MemoryTracer where
  m_bTracingActive : Bool
  m_mapAllocations : List (Nat × AllocationInfo)
  m_bTracingEnabled : Bool
deriving DecidableEq

namespace ScopedTraceDisabler

/-- The constructor of `ScopedTraceDisabler` on `m_bTracingEnabled`. -/
def enter (t : MemoryTracer) : MemoryTracer := { t with m_bTracingEnabled := false }

/-- The destructor of `ScopedTraceDisabler` on `m_bTracingEnabled`. -/
def leave (t : MemoryTracer) : MemoryTracer := { t with m_bTracingEnabled := true }

end ScopedTraceDisabler

namespace MemoryTracer

/-- The constructor `MemoryTracer::MemoryTracer`, with the initial value of the
thread-local guard. -/
def ctor : MemoryTracer :=
  { m_bTracingActive := false, m_mapAllocations := [], m_bTracingEnabled := true }

/-- The member `IsTracingActive`. -/
def IsTracingActive (t : MemoryTracer) : Bool := t.m_bTracingActive

/-- The member `Start`. -/
def Start (t : MemoryTracer) : MemoryTracer :=
  let t1 := ScopedTraceDisabler.enter t
  if t1.IsTracingActive then ScopedTraceDisabler.leave t1
  else
    let t2 := { t1 with m_bTracingActive := false }
    let t3 := { t2 with m_mapAllocations := [] }
    let t4 := { t3 with m_bTracingActive := true }
    ScopedTraceDisabler.leave t4

/-- The member `RecordAllocation`; `callStack` is what the unwinder sees. -/
def RecordAllocation (t : MemoryTracer) (pPtr uSize : Nat) (callStack : List Nat) :
    MemoryTracer :=
  if !t.IsTracingActive || !t.m_bTracingEnabled then t
  else
    let t1 := ScopedTraceDisabler.enter t
    let stTraceInfo := StackTraceCapturer.Capture callStack
    let t2 := { t1 with
      m_mapAllocations :=
        StdMap.update ptrLess (AllocationInfo.mk 0 StackTraceInfo.ctor)
          (fun _ => AllocationInfo.mk uSize stTraceInfo) t1.m_mapAllocations pPtr }
    ScopedTraceDisabler.leave t2

/-- The member `RecordDeallocation`. -/
def RecordDeallocation (t : MemoryTracer) (pPtr : Nat) : MemoryTracer :=
  let t1 := ScopedTraceDisabler.enter t
  let t2 := { t1 with m_mapAllocations := StdMap.erase ptrLess t1.m_mapAllocations pPtr }
  ScopedTraceDisabler.leave t2

end MemoryTracer

/-! ## The leak aggregator -/

/-- The element type of `mapLeakGroups` and of `vecSortedGroups`. -/
abbrev GroupEntry : Type := StackTraceInfo × LeakGroup

/-- What `GenerateLeakReport` takes from outside the repository: the algorithm
behind `std::sort`, and the display string that the platform symbol lookup
yields for one frame address. -/
structure Platform where
  sort : (GroupEntry → GroupEntry → Bool) → List GroupEntry → List GroupEntry
  resolveFrame : Nat → String

/-- The contract of `std::sort` for a comparator: the result is a rearrangement
of the input in which no element is ordered before an earlier one. -/
def IsStdSort (sort : (GroupEntry → GroupEntry → Bool) → List GroupEntry → List GroupEntry)
    (comp : GroupEntry → GroupEntry → Bool) : Prop :=
  ∀ l, (sort comp l).Perm l ∧ (sort comp l).Pairwise (fun a b => comp b a = false)

/-- A reference sorting algorithm (insertion sort) meeting the contract. -/
def insertionSort (comp : GroupEntry → GroupEntry → Bool) (l : List GroupEntry) :
    List GroupEntry :=
  List.insertionSort (fun a b => comp b a = false) l

/-- A reference platform: insertion sort, frames shown as decimal addresses. -/
def refPlatform : Platform :=
  { sort := insertionSort, resolveFrame := fun a => toString a }

namespace StackTraceCapturer

/-- The static function `ResolveSymbols`: nothing for an empty stack, else one
display string per captured frame, in capture order. -/
def ResolveSymbols (resolveFrame : Nat → String) (stStackTrace : StackTraceInfo) :
    List String :=
  if stStackTrace.m_uCount == 0 then []
  else (List.range stStackTrace.m_uCount).map (fun i => resolveFrame (stStackTrace.frame i))

end StackTraceCapturer

namespace MemoryTracer

/-- The body of the aggregation loop of `GenerateLeakReport` for one record:
`mapLeakGroups[oInfo.m_stStackTrace]` gets its count incremented, its total
size increased by the size of the record, and its stack overwritten. -/
def addRecord (mapLeakGroups : List GroupEntry) (oInfo : AllocationInfo) : List GroupEntry :=
  StdMap.update StackTraceInfo.operator_lt LeakGroup.ctor
    (fun oGroup =>
      { m_uCount := (oGroup.m_uCount + 1) % 2 ^ 64,
        m_uTotalSize := (oGroup.m_uTotalSize + oInfo.m_uSize) % 2 ^ 64,
        m_stStackTrace := oInfo.m_stStackTrace })
    mapLeakGroups oInfo.m_stStackTrace

/-- The aggregation loop of `GenerateLeakReport`: `mapLeakGroups` after all
records of the snapshot, visited in key order. -/
def buildLeakGroups (mapAllocations : List (Nat × AllocationInfo)) : List GroupEntry :=
  mapAllocations.foldl (fun mapLeakGroups it => addRecord mapLeakGroups it.2) []

/-- The lambda passed to `std::sort`. -/
def sortComp (oA oB : GroupEntry) : Bool := decide (oA.2.m_uTotalSize > oB.2.m_uTotalSize)

/-- The vector `vecSortedGroups` after `std::sort`. -/
def sortedGroups (p : Platform) (mapAllocations : List (Nat × AllocationInfo)) :
    List GroupEntry :=
  p.sort sortComp (buildLeakGroups mapAllocations)

/-- The rule of the report layout: the character `c` (code 61 is the equals
sign, code 45 the hyphen) written 80 times, as in the string literals of
`GenerateLeakReport`. -/
def rule (c : Char) : String := String.mk (List.replicate 80 c)

/-- Output of an unsigned value under `std::hex`. -/
def hexString (n : Nat) : String := String.mk (Nat.toDigits 16 n)

/-- Output of `s` under `std::setw(w)`: right-aligned, filled with spaces. -/
def setw (w : Nat) (s : String) : String :=
  String.mk (List.replicate (w - s.length) ' ') ++ s

/-- The inner loop writing the call stack, from frame index `uFrameIdx`. -/
def renderFrames : List String → Nat → String → String
  | [], _, ssReport => ssReport
  | sym :: rest, uFrameIdx, ssReport =>
    renderFrames rest (uFrameIdx + 1)
      (ssReport ++ "    #" ++ setw 2 (toString uFrameIdx) ++ " " ++ sym ++ "\n")

/-- The average written for a group; the C++ division is undefined for a zero
count, where this value is 0. -/
def averageSize (oGroup : LeakGroup) : Nat := oGroup.m_uTotalSize / oGroup.m_uCount

/-- The text written for one group at index `uGroupIdx`. -/
def renderGroup (p : Platform) (uGroupIdx : Nat) (pair : GroupEntry) (ssReport : String) :
    String :=
  let stTrace := pair.1
  let oGroup := pair.2
  let ss1 := ssReport ++ "LEAK GROUP " ++ toString ((uGroupIdx + 1) % 2 ^ 64) ++ ":\n"
  let ss2 := ss1 ++ "  Leak Count: " ++ toString oGroup.m_uCount ++ " allocations\n"
  let ss3 := ss2 ++ "  Total Size: " ++ toString oGroup.m_uTotalSize ++ " bytes\n"
  let ss4 := ss3 ++ "  Average Size: " ++ toString (averageSize oGroup) ++ " bytes\n"
  let ss5 := ss4 ++ "  Stack Hash: 0x" ++ hexString stTrace.m_uHash ++ "\n"
  let vecSymbols := StackTraceCapturer.ResolveSymbols p.resolveFrame oGroup.m_stStackTrace
  let ss6 := ss5 ++ "  Call Stack:\n"
  let ss7 := renderFrames vecSymbols 0 ss6
  ss7 ++ "\n" ++ rule (Char.ofNat 45) ++ "\n"

/-- The loop over `vecSortedGroups`, from index `uGroupIdx`: the report text and
the running `uTotalLeakedBytes`. -/
def renderGroups (p : Platform) : List GroupEntry → Nat → String → Nat → String × Nat
  | [], _, ssReport, uTotalLeakedBytes => (ssReport, uTotalLeakedBytes)
  | pair :: rest, uGroupIdx, ssReport, uTotalLeakedBytes =>
    renderGroups p rest (uGroupIdx + 1) (renderGroup p uGroupIdx pair ssReport)
      ((uTotalLeakedBytes + pair.2.m_uTotalSize) % 2 ^ 64)

/-- The three summary figures of the report: total leak groups, total
allocations, total leaked bytes. -/
def summary (p : Platform) (mapAllocations : List (Nat × AllocationInfo)) : Nat × Nat × Nat :=
  let vecSortedGroups := sortedGroups p mapAllocations
  (vecSortedGroups.length, mapAllocations.length,
    (renderGroups p vecSortedGroups 0 "" 0).2)

/-- The member `GenerateLeakReport`. -/
def GenerateLeakReport (p : Platform) (mapAllocations : List (Nat × AllocationInfo)) :
    String :=
  if mapAllocations.isEmpty then "" ++ "No memory leaks detected.\n"
  else
    let vecSortedGroups := sortedGroups p mapAllocations
    let ss1 := "" ++ rule (Char.ofNat 61) ++ "\n"
    let ss2 := ss1 ++ "                    MEMORY LEAK REPORT (GROUPED BY STACK TRACE)\n"
    let ss3 := ss2 ++ rule (Char.ofNat 61) ++ "\n\n"
    let uTotalLeakGroups := vecSortedGroups.length
    let r := renderGroups p vecSortedGroups 0 ss3 0
    let ss4 := r.1 ++ "SUMMARY:\n"
    let ss5 := ss4 ++ "  Total leak groups: " ++ toString uTotalLeakGroups ++ "\n"
    let ss6 := ss5 ++ "  Total allocations: " ++ toString mapAllocations.length ++ "\n"
    let ss7 := ss6 ++ "  Total leaked memory: " ++ toString r.2 ++ " bytes\n"
    ss7 ++ rule (Char.ofNat 61) ++ "\n"

/-- The member `End`: the returned report and the state left behind. -/
def End (p : Platform) (t : MemoryTracer) : String × MemoryTracer :=
  let t1 := ScopedTraceDisabler.enter t
  let mapResult : List (Nat × AllocationInfo) := []
  if !t1.IsTracingActive then (GenerateLeakReport p mapResult, ScopedTraceDisabler.leave t1)
  else
    let mapResult := t1.m_mapAllocations
    let t2 := { t1 with m_mapAllocations := [] }
    let t3 := { t2 with m_bTracingActive := false }
    (GenerateLeakReport p mapResult, ScopedTraceDisabler.leave t3)

end MemoryTracer

namespace StdMap

/-- The requirement of `std::map` on its comparator: a strict weak ordering. -/
structure StrictWeak {K : Type} (lt : K → K → Bool) : Prop where
  irrefl : ∀ a, lt a a = false
  trans : ∀ a b c, lt a b = true → lt b c = true → lt a c = true
  negtrans : ∀ a b c, lt a c = true → lt a b = true ∨ lt b c = true

/-- Key equivalence of `std::map`: neither key is less than the other. -/
def equiv {K : Type} (lt : K → K → Bool) (a b : K) : Bool := !lt a b && !lt b a

/-- The representation invariant of a `std::map`: keys strictly ascending. -/
def Valid {K V : Type} (lt : K → K → Bool) (m : List (K × V)) : Prop :=
  m.Pairwise (fun p q => lt p.1 q.1 = true)

end StdMap

/-! ## Call sequences inside a session -/

/-- One call made inside a tracing window: `RecordAllocation(pPtr, uSize)` made
where the unwinder sees `callStack`, or `RecordDeallocation(pPtr)`. -/
inductive Call where
  | alloc (pPtr uSize : Nat) (callStack : List Nat)
  | free (pPtr : Nat)
deriving DecidableEq

/-- The address a call is about. -/
def Call.addr : Call → Nat
  | .alloc pPtr _ _ => pPtr
  | .free pPtr => pPtr

/-- The tracer after one call. -/
def MemoryTracer.call (t : MemoryTracer) : Call → MemoryTracer
  | .alloc pPtr uSize callStack => t.RecordAllocation pPtr uSize callStack
  | .free pPtr => t.RecordDeallocation pPtr

/-- The tracer after a sequence of calls, made in order. -/
def MemoryTracer.run (t : MemoryTracer) (calls : List Call) : MemoryTracer :=
  calls.foldl MemoryTracer.call t

/-- The last call of a sequence that is about address `a`, if any. -/
def lastCall (calls : List Call) (a : Nat) : Option Call :=
  calls.reverse.find? (fun c => c.addr == a)

/-- The record that a sequence of calls leaves outstanding for address `a`: the
one of the last call about `a`, when that call is an allocation. -/
def outstanding (calls : List Call) (a : Nat) : Option AllocationInfo :=
  match lastCall calls a with
  | some (.alloc _ uSize callStack) =>
    some (AllocationInfo.mk uSize (StackTraceCapturer.Capture callStack))
  | _ => none

/-- The records of a snapshot whose stack trace equals `x` under `operator==`. -/
def recordsWithStack (snapshot : List (Nat × AllocationInfo)) (x : StackTraceInfo) :
    List (Nat × AllocationInfo) :=
  snapshot.filter (fun r => r.2.m_stStackTrace.operator_eq x)

/-- The sum of the sizes of a list of records. -/
def sumSizes (records : List (Nat × AllocationInfo)) : Nat :=
  (records.map (fun r => r.2.m_uSize)).sum

/-! ## Scopes and sessions -/

/-- A block that declares a `ScopedTraceDisabler` on the guard and then runs
`body`: the constructor, the body, the destructor. -/
def ScopedTraceDisabler.scoped (body : MemoryTracer → MemoryTracer) (t : MemoryTracer) :
    MemoryTracer :=
  ScopedTraceDisabler.leave (body (ScopedTraceDisabler.enter t))

/-- One call of a member of the session controller: `Start()`, `End()`, or one
of the two recording members. -/
inductive SessionOp where
  | opStart
  | opEnd
  | opRecord (c : Call)
deriving DecidableEq

/-- The tracer after one member call (the report of `End()` is dropped). -/
def MemoryTracer.step (p : Platform) (t : MemoryTracer) : SessionOp → MemoryTracer
  | .opStart => t.Start
  | .opEnd => (MemoryTracer.End p t).2
  | .opRecord c => t.call c

/-- The tracer after a sequence of member calls, made in order. -/
def MemoryTracer.steps (p : Platform) (t : MemoryTracer) (ops : List SessionOp) :
    MemoryTracer :=
  ops.foldl (MemoryTracer.step p) t

/-! ## Reference definitions for the summary and the report order -/

/-- The distinct stacks of a snapshot: the stack of each record that no earlier
record equals under `operator==`, in snapshot order. -/
def distinctStacks (snapshot : List (Nat × AllocationInfo)) : List StackTraceInfo :=
  snapshot.foldl
    (fun acc r =>
      if acc.any (fun x => x.operator_eq r.2.m_stStackTrace) then acc
      else acc ++ [r.2.m_stStackTrace])
    []

/-- The sum of the counts of a list of groups. -/
def sumCounts (groups : List GroupEntry) : Nat :=
  (groups.map (fun g => g.2.m_uCount)).sum

/-- The sum of the total sizes of a list of groups. -/
def sumTotalSizes (groups : List GroupEntry) : Nat :=
  (groups.map (fun g => g.2.m_uTotalSize)).sum

namespace GnuSort

/-- The element `*(first + i)` of a range, `dflt` standing for an element
outside the range (never read by a sort of a non-empty range). -/
def elem {α : Type} (dflt : α) (a : List α) (i : Nat) : α := a.getD i dflt

/-- The function `std::iter_swap` on two positions of a range. -/
def iter_swap {α : Type} (dflt : α) (a : List α) (i j : Nat) : List α :=
  (a.set i (elem dflt a j)).set j (elem dflt a i)

/-- The loop of `__unguarded_linear_insert`: `val` is the value taken out at
the hole, the list holds the elements before the hole starting from the
nearest one, and the result is the range with `val` put in, again from its
right end. Each element that `val` is ordered before moves one place right. -/
def linear_insert_loop {α : Type} (comp : α → α → Bool) (val : α) : List α → List α
  | [] => [val]
  | next :: left =>
    if comp val next then next :: linear_insert_loop comp val left
    else val :: next :: left

/-- The function `__unguarded_linear_insert` at the position just after the
range `sorted`, where `val` stands. -/
def unguarded_linear_insert {α : Type} (comp : α → α → Bool) (sorted : List α) (val : α) :
    List α :=
  (linear_insert_loop comp val sorted.reverse).reverse

/-- One round of the loop of `__insertion_sort`: `sorted` is the range before
position `i` and `val` the element at `i`. -/
def insertion_step {α : Type} (comp : α → α → Bool) (sorted : List α) (val : α) : List α :=
  match sorted with
  | [] => [val]
  | first :: _ =>
    if comp val first then val :: sorted
    else unguarded_linear_insert comp sorted val

/-- The function `__insertion_sort` on a whole range. -/
def insertion_sort {α : Type} (comp : α → α → Bool) : List α → List α
  | [] => []
  | first :: rest => rest.foldl (insertion_step comp) [first]

/-- The function `__unguarded_insertion_sort` on the range `rest` that follows
the range `sorted`. -/
def unguarded_insertion_sort {α : Type} (comp : α → α → Bool) (sorted rest : List α) :
    List α :=
  rest.foldl (unguarded_linear_insert comp) sorted

/-- The constant `_S_threshold`. -/
def S_threshold : Nat := 16

/-- The function `__final_insertion_sort`. -/
def final_insertion_sort {α : Type} (comp : α → α → Bool) (a : List α) : List α :=
  if a.length > S_threshold then
    unguarded_insertion_sort comp (insertion_sort comp (a.take S_threshold))
      (a.drop S_threshold)
  else insertion_sort comp a

/-- The function `__move_median_to_first`. -/
def move_median_to_first {α : Type} (dflt : α) (comp : α → α → Bool) (arr : List α)
    (result a b c : Nat) : List α :=
  if comp (elem dflt arr a) (elem dflt arr b) then
    if comp (elem dflt arr b) (elem dflt arr c) then iter_swap dflt arr result b
    else if comp (elem dflt arr a) (elem dflt arr c) then iter_swap dflt arr result c
    else iter_swap dflt arr result a
  else if comp (elem dflt arr a) (elem dflt arr c) then iter_swap dflt arr result a
  else if comp (elem dflt arr b) (elem dflt arr c) then iter_swap dflt arr result c
  else iter_swap dflt arr result b

/-- The loop `while (comp(first, pivot)) ++first` of `__unguarded_partition`. -/
def scan_up {α : Type} (dflt : α) (comp : α → α → Bool) (a : List α) (pivot : Nat) :
    Nat → Nat → Nat
  | 0, first => first
  | fuel + 1, first =>
    if comp (elem dflt a first) (elem dflt a pivot) then scan_up dflt comp a pivot fuel (first + 1)
    else first

/-- The loop `while (comp(pivot, last)) --last` of `__unguarded_partition`. -/
def scan_down {α : Type} (dflt : α) (comp : α → α → Bool) (a : List α) (pivot : Nat) :
    Nat → Nat → Nat
  | 0, last => last
  | fuel + 1, last =>
    if comp (elem dflt a pivot) (elem dflt a last) then scan_down dflt comp a pivot fuel (last - 1)
    else last

/-- The function `__unguarded_partition`: the range after the swaps and the
returned position. -/
def unguarded_partition {α : Type} (dflt : α) (comp : α → α → Bool) (pivot : Nat) :
    Nat → List α → Nat → Nat → List α × Nat
  | 0, a, first, _ => (a, first)
  | fuel + 1, a, first, last =>
    let first1 := scan_up dflt comp a pivot a.length first
    let last1 := scan_down dflt comp a pivot a.length (last - 1)
    if !(decide (first1 < last1)) then (a, first1)
    else unguarded_partition dflt comp pivot fuel (iter_swap dflt a first1 last1) (first1 + 1) last1

/-- The function `__unguarded_partition_pivot` on a whole range. -/
def unguarded_partition_pivot {α : Type} (dflt : α) (comp : α → α → Bool) (a : List α) :
    List α × Nat :=
  let mid := a.length / 2
  let a1 := move_median_to_first dflt comp a 0 1 mid (a.length - 1)
  unguarded_partition dflt comp 0 a.length a1 1 a.length

/-- The loop of `__push_heap`. -/
def push_heap {α : Type} (dflt : α) (comp : α → α → Bool) (value : α) (topIndex : Nat) :
    Nat → List α → Nat → List α
  | 0, a, holeIndex => a.set holeIndex value
  | fuel + 1, a, holeIndex =>
    let parent := (holeIndex - 1) / 2
    if decide (holeIndex > topIndex) && comp (elem dflt a parent) value then
      push_heap dflt comp value topIndex fuel (a.set holeIndex (elem dflt a parent)) parent
    else a.set holeIndex value

/-- The `while` loop of `__adjust_heap`: the range, the hole and the second
child when it ends. -/
def adjust_heap_loop {α : Type} (dflt : α) (comp : α → α → Bool) (len : Nat) :
    Nat → List α → Nat → Nat → List α × Nat × Nat
  | 0, a, holeIndex, secondChild => (a, holeIndex, secondChild)
  | fuel + 1, a, holeIndex, secondChild =>
    if secondChild < (len - 1) / 2 then
      let sc1 := 2 * (secondChild + 1)
      let sc2 := if comp (elem dflt a sc1) (elem dflt a (sc1 - 1)) then sc1 - 1 else sc1
      adjust_heap_loop dflt comp len fuel (a.set holeIndex (elem dflt a sc2)) sc2 sc2
    else (a, holeIndex, secondChild)

/-- The function `__adjust_heap`. -/
def adjust_heap {α : Type} (dflt : α) (comp : α → α → Bool) (a : List α)
    (holeIndex len : Nat) (value : α) : List α :=
  let topIndex := holeIndex
  let r := adjust_heap_loop dflt comp len len a holeIndex holeIndex
  let r2 : List α × Nat :=
    if len % 2 == 0 && r.2.2 == (len - 2) / 2 then
      (r.1.set r.2.1 (elem dflt r.1 (2 * (r.2.2 + 1) - 1)), 2 * (r.2.2 + 1) - 1)
    else (r.1, r.2.1)
  push_heap dflt comp value topIndex len r2.1 r2.2

/-- The loop of `__make_heap`. -/
def make_heap_loop {α : Type} (dflt : α) (comp : α → α → Bool) (len : Nat) :
    Nat → List α → Nat → List α
  | 0, a, _ => a
  | fuel + 1, a, parent =>
    let a1 := adjust_heap dflt comp a parent len (elem dflt a parent)
    if parent == 0 then a1 else make_heap_loop dflt comp len fuel a1 (parent - 1)

/-- The function `__make_heap` on a whole range. -/
def make_heap {α : Type} (dflt : α) (comp : α → α → Bool) (a : List α) : List α :=
  if a.length < 2 then a
  else make_heap_loop dflt comp a.length a.length a ((a.length - 2) / 2)

/-- The function `__pop_heap` on the range up to `last`, with `result`. -/
def pop_heap {α : Type} (dflt : α) (comp : α → α → Bool) (a : List α) (last result : Nat) :
    List α :=
  adjust_heap dflt comp (a.set result (elem dflt a 0)) 0 last (elem dflt a result)

/-- The loop of `__sort_heap`. -/
def sort_heap {α : Type} (dflt : α) (comp : α → α → Bool) : Nat → List α → Nat → List α
  | 0, a, _ => a
  | fuel + 1, a, last =>
    if last > 1 then sort_heap dflt comp fuel (pop_heap dflt comp a (last - 1) (last - 1)) (last - 1)
    else a

/-- The call `__partial_sort(first, last, last)` of `__introsort_loop`: with the
middle at the end, `__heap_select` is `__make_heap` alone. -/
def partial_sort {α : Type} (dflt : α) (comp : α → α → Bool) (a : List α) : List α :=
  sort_heap dflt comp a.length (make_heap dflt comp a) a.length

/-- The function `__introsort_loop` on a whole range: the range left of the
cut is the one the `while` loop goes on with, the range right of it is the one
of the recursive call. -/
def introsort_loop {α : Type} (dflt : α) (comp : α → α → Bool) : Nat → List α → List α
  | 0, a => if a.length > S_threshold then partial_sort dflt comp a else a
  | depth_limit + 1, a =>
    if a.length > S_threshold then
      let r := unguarded_partition_pivot dflt comp a
      introsort_loop dflt comp depth_limit (r.1.take r.2) ++
        introsort_loop dflt comp depth_limit (r.1.drop r.2)
    else a

/-- The loop behind `std::__lg`: the number of halvings that keep `n` at 1 or
more, with a bound on the rounds. -/
def lg_loop : Nat → Nat → Nat
  | 0, _ => 0
  | fuel + 1, n => if n ≥ 2 then lg_loop fuel (n / 2) + 1 else 0

/-- The function `std::__lg`: the floor of the binary logarithm. -/
def lg (n : Nat) : Nat := lg_loop n n

/-- The function `std::__sort` of the GNU C++ library. -/
def sort {α : Type} (dflt : α) (comp : α → α → Bool) (a : List α) : List α :=
  if a.isEmpty then a
  else final_insertion_sort comp (introsort_loop dflt comp (lg a.length * 2) a)

end GnuSort

/-- A snapshot of 40 outstanding allocations of 100 bytes each, at addresses
16, 32, ..., 640, the one at `16 * (i + 1)` made from the call site with the
single return address `i + 1`. -/
def fortyLeaks : List (Nat × AllocationInfo) :=
  (List.range 40).map
    (fun i => (16 * (i + 1), AllocationInfo.mk 100 (StackTraceCapturer.Capture [i + 1])))

/-! ## Two threads: a `RecordAllocation` call and an `End` call

The active flag and the registry are shared by the two threads. A region that
runs while `m_oMutexAlloc` is held is one step; the prologue of
`RecordAllocation`, which reads the atomic flag without holding the mutex, is a
step of its own. -/

/-- Where the recording thread stands in `RecordAllocation`: at its entry,
past the check with the stack captured and the mutex not yet taken, or
returned. -/
inductive RecorderPc where
  | atEntry
  | beforeLock (stTraceInfo : StackTraceInfo)
  | returned
deriving DecidableEq

/-- The state of the two threads: `tracer` holds the shared active flag and
registry together with the guard of the recording thread; `mapResult` is the
local map of `End`, present once the critical section of `End` has run. -/
structure TwoThreads where
  tracer : MemoryTracer
  recorder : RecorderPc
  mapResult : Option (List (Nat × AllocationInfo))
deriving DecidableEq

/-- The steps of the two threads: the unlocked prologue of `RecordAllocation`
(the check, the `ScopedTraceDisabler`, `Capture`), its locked insertion followed
by the destructor, and the critical section of `End`. -/
inductive ThreadStep where
  | recorderCheck
  | recorderInsert
  | enderSection
deriving DecidableEq

namespace TwoThreads

/-- The state before either thread has made a step. -/
def init (t : MemoryTracer) : TwoThreads :=
  { tracer := t, recorder := RecorderPc.atEntry, mapResult := none }

/-- One step of `RecordAllocation(pPtr, uSize)` or of `End()`; `none` when the
thread concerned is not at that step. -/
def step (pPtr uSize : Nat) (callStack : List Nat) (s : TwoThreads) :
    ThreadStep → Option TwoThreads
  | .recorderCheck =>
    match s.recorder with
    | .atEntry =>
      if !s.tracer.IsTracingActive || !s.tracer.m_bTracingEnabled then
        some { s with recorder := RecorderPc.returned }
      else
        some { s with
          tracer := ScopedTraceDisabler.enter s.tracer,
          recorder := RecorderPc.beforeLock (StackTraceCapturer.Capture callStack) }
    | _ => none
  | .recorderInsert =>
    match s.recorder with
    | .beforeLock stTraceInfo =>
      some { s with
        tracer := ScopedTraceDisabler.leave
          { s.tracer with
            m_mapAllocations :=
              StdMap.update ptrLess (AllocationInfo.mk 0 StackTraceInfo.ctor)
                (fun _ => AllocationInfo.mk uSize stTraceInfo) s.tracer.m_mapAllocations pPtr },
        recorder := RecorderPc.returned }
    | _ => none
  | .enderSection =>
    match s.mapResult with
    | none =>
      if !s.tracer.IsTracingActive then some { s with mapResult := some [] }
      else
        some { s with
          tracer := { s.tracer with m_mapAllocations := [], m_bTracingActive := false },
          mapResult := some s.tracer.m_mapAllocations }
    | some _ => none

/-- A schedule run from a state: `none` when some step of it cannot be made. -/
def exec (pPtr uSize : Nat) (callStack : List Nat) : TwoThreads → List ThreadStep →
    Option TwoThreads
  | s, [] => some s
  | s, a :: rest =>
    match step pPtr uSize callStack s a with
    | none => none
    | some s1 => exec pPtr uSize callStack s1 rest

end TwoThreads

/-! ## Reference definitions for the hash -/

/-- The addresses in the first `n` slots of a frame array, in order. -/
def firstAddresses (aFrames : List Nat) (n : Nat) : List Nat :=
  (List.range n).map (fun i => aFrames.getD i 0)

/-- The reference hash, stated as the specification words it: start from
14695981039346656037 and, for each address in order, mix in its high half and
then its low half, each time multiplying by 1099511628211 modulo `2^64`. -/
def hashReference (addrs : List Nat) : Nat :=
  addrs.foldl
    (fun h a =>
      ((((h ^^^ ((a >>> 32) &&& 0xFFFFFFFF)) * 1099511628211) % 2 ^ 64 ^^^
        (a &&& 0xFFFFFFFF)) * 1099511628211) % 2 ^ 64)
    14695981039346656037

/-! # Theorems -/
namespace StackTraceInfo

theorem eqLoop_iff (x y : StackTraceInfo) (n i : Nat) :
    eqLoop x y n i = true ↔ ∀ k, k < n → x.frame (i + k) = y.frame (i + k) := by
  induction n generalizing i with
  | zero => simp [eqLoop]
  | succ n ih =>
    simp only [eqLoop]
    by_cases h : x.frame i = y.frame i
    · simp only [h, bne_self_eq_false, Bool.false_eq_true, if_false, ih]
      constructor
      · intro hk k hlt
        cases k with
        | zero => simpa using h
        | succ k =>
          have := hk k (by omega)
          simpa [Nat.add_assoc, Nat.add_comm 1 k] using this
      · intro hk k hlt
        have := hk (k + 1) (by omega)
        simpa [Nat.add_assoc, Nat.add_comm 1 k] using this
    · have hb : (x.frame i != y.frame i) = true := by simpa using h
      simp only [hb, if_true]
      constructor
      · intro hf; cases hf
      · intro hk
        exact absurd (by simpa using hk 0 (by omega)) h

theorem ltLoop_succ (x y : StackTraceInfo) (n i : Nat) :
    ltLoop x y (n + 1) i =
      if x.frame i = y.frame i then ltLoop x y n (i + 1) else decide (x.frame i < y.frame i) := by
  by_cases h : x.frame i = y.frame i <;> simp [ltLoop, h]

theorem eqLoop_succ (x y : StackTraceInfo) (n i : Nat) :
    eqLoop x y (n + 1) i =
      if x.frame i = y.frame i then eqLoop x y n (i + 1) else false := by
  by_cases h : x.frame i = y.frame i <;> simp [eqLoop, h]

theorem ltLoop_irrefl (x : StackTraceInfo) (n i : Nat) : ltLoop x x n i = false := by
  induction n generalizing i with
  | zero => simp [ltLoop]
  | succ n ih => simp [ltLoop_succ, ih]

theorem ltLoop_trans (x y z : StackTraceInfo) (n i : Nat)
    (hxy : ltLoop x y n i = true) (hyz : ltLoop y z n i = true) :
    ltLoop x z n i = true := by
  induction n generalizing i with
  | zero => simp [ltLoop] at hxy
  | succ n ih =>
    rw [ltLoop_succ] at hxy hyz ⊢
    by_cases h1 : x.frame i = y.frame i
    · rw [if_pos h1] at hxy
      by_cases h2 : y.frame i = z.frame i
      · rw [if_pos h2] at hyz
        rw [if_pos (h1.trans h2)]
        exact ih _ hxy hyz
      · rw [if_neg h2] at hyz
        rw [if_neg (by rw [h1]; exact h2)]
        rw [h1]; exact hyz
    · rw [if_neg h1] at hxy
      have hxy1 : x.frame i < y.frame i := by simpa using hxy
      by_cases h2 : y.frame i = z.frame i
      · rw [if_neg (by rw [← h2]; exact h1)]
        rw [← h2]; exact hxy
      · rw [if_neg h2] at hyz
        have hyz1 : y.frame i < z.frame i := by simpa using hyz
        have h3 : ¬ x.frame i = z.frame i := by omega
        rw [if_neg h3]
        have : x.frame i < z.frame i := by omega
        simpa using this

theorem ltLoop_negtrans (x y z : StackTraceInfo) (n i : Nat)
    (hxz : ltLoop x z n i = true) :
    ltLoop x y n i = true ∨ ltLoop y z n i = true := by
  induction n generalizing i with
  | zero => simp [ltLoop] at hxz
  | succ n ih =>
    rw [ltLoop_succ] at hxz
    rw [ltLoop_succ, ltLoop_succ]
    by_cases h1 : x.frame i = y.frame i
    · rw [if_pos h1]
      by_cases h2 : y.frame i = z.frame i
      · rw [if_pos h2]
        rw [if_pos (h1.trans h2)] at hxz
        exact ih _ hxz
      · rw [if_neg h2]
        rw [if_neg (by rw [h1]; exact h2)] at hxz
        right; rw [← h1]; exact hxz
    · rw [if_neg h1]
      by_cases h2 : y.frame i = z.frame i
      · rw [if_neg (by rw [← h2]; exact h1)] at hxz
        left; rw [h2]; exact hxz
      · rw [if_neg h2]
        by_cases h3 : x.frame i = z.frame i
        · have : x.frame i < y.frame i ∨ y.frame i < z.frame i := by omega
          simpa using this
        · rw [if_neg h3] at hxz
          have hxz1 : x.frame i < z.frame i := by simpa using hxz
          have : x.frame i < y.frame i ∨ y.frame i < z.frame i := by omega
          simpa using this

theorem eqLoop_iff_ltLoop (x y : StackTraceInfo) (n i : Nat) :
    eqLoop x y n i = true ↔ (ltLoop x y n i = false ∧ ltLoop y x n i = false) := by
  induction n generalizing i with
  | zero => simp [eqLoop, ltLoop]
  | succ n ih =>
    simp only [ltLoop_succ, eqLoop_succ]
    by_cases h : x.frame i = y.frame i
    · simp [h, ih]
    · have h2 : ¬ y.frame i = x.frame i := fun e => h e.symm
      simp only [h, h2, if_false]
      simp
      omega

/-- The member `operator<` never orders a stack before itself. -/
theorem operator_lt_irrefl (x : StackTraceInfo) : operator_lt x x = false := by
  simp [operator_lt, ltLoop_irrefl]

/-- The member `operator<` is transitive. -/
theorem operator_lt_trans (x y z : StackTraceInfo)
    (hxy : operator_lt x y = true) (hyz : operator_lt y z = true) :
    operator_lt x z = true := by
  unfold operator_lt at hxy hyz ⊢
  by_cases a1 : x.m_uHash = y.m_uHash
  · by_cases a2 : y.m_uHash = z.m_uHash
    · have a3 : x.m_uHash = z.m_uHash := a1.trans a2
      simp only [a1, a2, a3, bne_self_eq_false, Bool.false_eq_true, if_false] at hxy hyz ⊢
      by_cases b1 : x.m_uCount = y.m_uCount
      · by_cases b2 : y.m_uCount = z.m_uCount
        · have b3 : x.m_uCount = z.m_uCount := b1.trans b2
          simp only [b1, b2, b3, bne_self_eq_false, Bool.false_eq_true, if_false] at hxy hyz ⊢
          exact ltLoop_trans x y z _ 0 hxy hyz
        · have b3 : ¬ x.m_uCount = z.m_uCount := by omega
          simp [b1, b2, b3] at hxy hyz ⊢
          omega
      · by_cases b2 : y.m_uCount = z.m_uCount
        · have b3 : ¬ x.m_uCount = z.m_uCount := by omega
          simp [b1, b2, b3] at hxy hyz ⊢
          omega
        · simp [b1, b2] at hxy hyz
          have b3 : ¬ x.m_uCount = z.m_uCount := by omega
          simp [b3]
          omega
    · have a3 : ¬ x.m_uHash = z.m_uHash := by omega
      simp [a1, a2, a3] at hxy hyz ⊢
      omega
  · by_cases a2 : y.m_uHash = z.m_uHash
    · have a3 : ¬ x.m_uHash = z.m_uHash := by omega
      simp [a1, a2, a3] at hxy hyz ⊢
      omega
    · simp [a1, a2] at hxy hyz
      have a3 : ¬ x.m_uHash = z.m_uHash := by omega
      simp [a3]
      omega

/-- The member `operator<` is negatively transitive: a stack ordered before another is
ordered before, or the other after, any third stack. -/
theorem operator_lt_negtrans (x y z : StackTraceInfo)
    (hxz : operator_lt x z = true) :
    operator_lt x y = true ∨ operator_lt y z = true := by
  unfold operator_lt at hxz ⊢
  by_cases a3 : x.m_uHash = z.m_uHash
  · by_cases a1 : x.m_uHash = y.m_uHash
    · have a2 : y.m_uHash = z.m_uHash := by omega
      simp only [a1, a2, a3, bne_self_eq_false, Bool.false_eq_true, if_false] at hxz ⊢
      by_cases b3 : x.m_uCount = z.m_uCount
      · by_cases b1 : x.m_uCount = y.m_uCount
        · have b2 : y.m_uCount = z.m_uCount := by omega
          simp only [b1, b2, b3, bne_self_eq_false, Bool.false_eq_true, if_false] at hxz ⊢
          exact ltLoop_negtrans x y z _ 0 hxz
        · have b2 : ¬ y.m_uCount = z.m_uCount := by omega
          simp [b1, b2]
          omega
      · simp [b3] at hxz
        by_cases b1 : x.m_uCount = y.m_uCount
        · have b2 : ¬ y.m_uCount = z.m_uCount := by omega
          right
          simp [b2]
          omega
        · by_cases b2 : y.m_uCount = z.m_uCount
          · left
            simp [b1]
            omega
          · simp [b1, b2]
            omega
    · have a2 : ¬ y.m_uHash = z.m_uHash := by omega
      simp [a1, a2]
      omega
  · simp [a3] at hxz
    by_cases a1 : x.m_uHash = y.m_uHash
    · have a2 : ¬ y.m_uHash = z.m_uHash := by omega
      right
      simp [a2]
      omega
    · by_cases a2 : y.m_uHash = z.m_uHash
      · left
        simp [a1]
        omega
      · simp [a1, a2]
        omega

/-- The member `operator==` holds exactly when `operator<` orders neither stack first. -/
theorem operator_eq_iff_not_lt (x y : StackTraceInfo) :
    operator_eq x y = true ↔ (operator_lt x y = false ∧ operator_lt y x = false) := by
  unfold operator_eq operator_lt
  by_cases a : x.m_uHash = y.m_uHash
  · by_cases b : x.m_uCount = y.m_uCount
    · simp only [a, b, bne_self_eq_false, Bool.false_eq_true, if_false]
      exact eqLoop_iff_ltLoop x y _ 0
    · have b2 : ¬ y.m_uCount = x.m_uCount := fun e => b e.symm
      simp [a, b, b2]
      omega
  · have a2 : ¬ y.m_uHash = x.m_uHash := fun e => a e.symm
    simp [a, a2]
    omega

end StackTraceInfo
namespace StdMap

section
variable {K V : Type} {lt : K → K → Bool}

theorem StrictWeak.asymm (h : StrictWeak lt) {a b : K} (hab : lt a b = true) :
    lt b a = false := by
  cases hba : lt b a with
  | false => rfl
  | true =>
    have := h.trans a b a hab hba
    rw [h.irrefl] at this
    cases this

theorem equiv_iff {a b : K} : equiv lt a b = true ↔ (lt a b = false ∧ lt b a = false) := by
  simp [equiv]

theorem equiv_false_iff {a b : K} :
    equiv lt a b = false ↔ (lt a b = true ∨ lt b a = true) := by
  cases h1 : lt a b <;> cases h2 : lt b a <;> simp [equiv, h1, h2]

theorem StrictWeak.equiv_refl (h : StrictWeak lt) (a : K) : equiv lt a a = true := by
  simp [equiv, h.irrefl]

theorem equiv_symm {a b : K} (hab : equiv lt a b = true) : equiv lt b a = true := by
  rw [equiv_iff] at hab ⊢
  exact ⟨hab.2, hab.1⟩

theorem StrictWeak.lt_of_lt_of_equiv (h : StrictWeak lt) {a b c : K}
    (hab : lt a b = true) (hbc : equiv lt b c = true) : lt a c = true := by
  rw [equiv_iff] at hbc
  rcases h.negtrans a c b hab with h1 | h1
  · exact h1
  · rw [hbc.2] at h1; cases h1

theorem StrictWeak.lt_of_equiv_of_lt (h : StrictWeak lt) {a b c : K}
    (hab : equiv lt a b = true) (hbc : lt b c = true) : lt a c = true := by
  rw [equiv_iff] at hab
  rcases h.negtrans b a c hbc with h1 | h1
  · rw [hab.2] at h1; cases h1
  · exact h1

theorem StrictWeak.equiv_trans (h : StrictWeak lt) {a b c : K}
    (hab : equiv lt a b = true) (hbc : equiv lt b c = true) : equiv lt a c = true := by
  rw [equiv_iff]
  constructor
  · cases hac : lt a c with
    | false => rfl
    | true =>
      have := h.lt_of_lt_of_equiv hac (equiv_symm hbc)
      rw [(equiv_iff.1 hab).1] at this; cases this
  · cases hca : lt c a with
    | false => rfl
    | true =>
      have := h.lt_of_lt_of_equiv hca hab
      rw [(equiv_iff.1 hbc).2] at this; cases this

theorem find_cons (k1 : K) (v : V) (rest : List (K × V)) (k : K) :
    find lt ((k1, v) :: rest) k =
      if lt k k1 = true then none else if lt k1 k = true then find lt rest k else some v := rfl

theorem update_cons (dflt : V) (f : V → V) (k1 : K) (v : V) (rest : List (K × V)) (k : K) :
    update lt dflt f ((k1, v) :: rest) k =
      if lt k k1 = true then (k, f dflt) :: (k1, v) :: rest
      else if lt k1 k = true then (k1, v) :: update lt dflt f rest k
      else (k1, f v) :: rest := rfl

theorem erase_cons (k1 : K) (v : V) (rest : List (K × V)) (k : K) :
    erase lt ((k1, v) :: rest) k =
      if lt k k1 = true then (k1, v) :: rest
      else if lt k1 k = true then (k1, v) :: erase lt rest k
      else rest := rfl

/-- A key below every key of the map is not found. -/
theorem find_eq_none_of_below (m : List (K × V)) (k : K)
    (hb : ∀ p ∈ m, lt k p.1 = true) : find lt m k = none := by
  cases m with
  | nil => rfl
  | cons p rest =>
    obtain ⟨k1, v⟩ := p
    rw [find_cons, if_pos (hb (k1, v) (List.mem_cons_self _ _))]

/-- Lookup does not distinguish equivalent keys. -/
theorem find_congr (h : StrictWeak lt) (m : List (K × V)) {k k2 : K}
    (he : equiv lt k k2 = true) : find lt m k = find lt m k2 := by
  induction m with
  | nil => rfl
  | cons p rest ih =>
    obtain ⟨k1, v⟩ := p
    rw [find_cons, find_cons]
    by_cases h1 : lt k k1 = true
    · rw [if_pos h1, if_pos (h.lt_of_equiv_of_lt (equiv_symm he) h1)]
    · have h1b : ¬ lt k2 k1 = true := fun h2 => h1 (h.lt_of_equiv_of_lt he h2)
      rw [if_neg h1, if_neg h1b]
      by_cases h3 : lt k1 k = true
      · rw [if_pos h3, if_pos (h.lt_of_lt_of_equiv h3 he), ih]
      · have h3b : ¬ lt k1 k2 = true := fun h4 => h3 (h.lt_of_lt_of_equiv h4 (equiv_symm he))
        rw [if_neg h3, if_neg h3b]

/-- Lookup after `operator[]` and update, at an equivalent key. -/
theorem find_update_equiv (h : StrictWeak lt) (dflt : V) (f : V → V) (m : List (K × V))
    {k k2 : K} (he : equiv lt k k2 = true) :
    find lt (update lt dflt f m k) k2 = some (f ((find lt m k).getD dflt)) := by
  have he2 := equiv_iff.1 he
  induction m with
  | nil =>
    simp [update, find, he2.1, he2.2]
  | cons p rest ih =>
    obtain ⟨k1, v⟩ := p
    rw [update_cons, find_cons]
    by_cases h1 : lt k k1 = true
    · rw [if_pos h1, if_pos h1, find_cons]
      simp [he2.1, he2.2]
    · rw [if_neg h1, if_neg h1]
      by_cases h3 : lt k1 k = true
      · rw [if_pos h3, if_pos h3, find_cons]
        have h4 : lt k1 k2 = true := h.lt_of_lt_of_equiv h3 he
        rw [if_neg (by rw [h.asymm h4]; simp), if_pos h4, ih]
      · rw [if_neg h3, if_neg h3, find_cons]
        have h5 : equiv lt k k1 = true := by
          rw [equiv_iff]; exact ⟨by simpa using h1, by simpa using h3⟩
        have h6 := equiv_iff.1 (h.equiv_trans (equiv_symm he) h5)
        simp [h6.1, h6.2]

/-- Lookup after `operator[]` and update, at a key that is not equivalent. -/
theorem find_update_other (h : StrictWeak lt) (dflt : V) (f : V → V) (m : List (K × V))
    {k k2 : K} (he : equiv lt k k2 = false) :
    find lt (update lt dflt f m k) k2 = find lt m k2 := by
  have he2 := equiv_false_iff.1 he
  induction m with
  | nil =>
    rcases he2 with h1 | h1
    · simp [update, find, h1, h.asymm h1]
    · simp [update, find, h1]
  | cons p rest ih =>
    obtain ⟨k1, v⟩ := p
    rw [update_cons]
    by_cases h1 : lt k k1 = true
    · rw [if_pos h1, find_cons]
      by_cases h2 : lt k2 k = true
      · rw [if_pos h2, find_cons, if_pos (h.trans _ _ _ h2 h1)]
      · rw [if_neg h2]
        rcases he2 with h3 | h3
        · rw [if_pos h3]
        · exact absurd h3 h2
    · rw [if_neg h1]
      by_cases h3 : lt k1 k = true
      · rw [if_pos h3, find_cons, find_cons, ih]
      · rw [if_neg h3, find_cons, find_cons]
        have h5 : equiv lt k k1 = true := by
          rw [equiv_iff]; exact ⟨by simpa using h1, by simpa using h3⟩
        by_cases h6 : lt k2 k1 = true
        · rw [if_pos h6, if_pos h6]
        · rw [if_neg h6, if_neg h6]
          by_cases h7 : lt k1 k2 = true
          · rw [if_pos h7, if_pos h7]
          · exfalso
            have h8 : equiv lt k1 k2 = true := by
              rw [equiv_iff]; exact ⟨by simpa using h7, by simpa using h6⟩
            have := h.equiv_trans h5 h8
            rw [he] at this; cases this

/-- Every key of the map after `operator[]` is the requested key or an old key. -/
theorem mem_update_key (dflt : V) (f : V → V) (m : List (K × V)) (k : K) (p : K × V)
    (hp : p ∈ update lt dflt f m k) : p.1 = k ∨ ∃ q ∈ m, q.1 = p.1 := by
  induction m with
  | nil =>
    simp only [update, List.mem_singleton] at hp
    left; rw [hp]
  | cons q rest ih =>
    obtain ⟨k1, v⟩ := q
    rw [update_cons] at hp
    by_cases h1 : lt k k1 = true
    · rw [if_pos h1] at hp
      rcases List.mem_cons.1 hp with h2 | h2
      · left; rw [h2]
      · right; exact ⟨p, h2, rfl⟩
    · rw [if_neg h1] at hp
      by_cases h3 : lt k1 k = true
      · rw [if_pos h3] at hp
        rcases List.mem_cons.1 hp with h2 | h2
        · right; exact ⟨(k1, v), List.mem_cons_self _ _, by rw [h2]⟩
        · rcases ih h2 with h4 | ⟨q, hq, hq2⟩
          · left; exact h4
          · right; exact ⟨q, List.mem_cons_of_mem _ hq, hq2⟩
      · rw [if_neg h3] at hp
        rcases List.mem_cons.1 hp with h2 | h2
        · right; exact ⟨(k1, v), List.mem_cons_self _ _, by rw [h2]⟩
        · right; exact ⟨p, List.mem_cons_of_mem _ h2, rfl⟩

/-- The representation invariant is kept by `operator[]` and update. -/
theorem valid_update (h : StrictWeak lt) (dflt : V) (f : V → V) (m : List (K × V)) (k : K)
    (hv : Valid lt m) : Valid lt (update lt dflt f m k) := by
  induction m with
  | nil => simp [update, Valid]
  | cons q rest ih =>
    obtain ⟨k1, v⟩ := q
    have hv2 := List.pairwise_cons.1 hv
    rw [update_cons]
    by_cases h1 : lt k k1 = true
    · rw [if_pos h1]
      refine List.pairwise_cons.2 ⟨?_, hv⟩
      intro p hp
      rcases List.mem_cons.1 hp with h2 | h2
      · rw [h2]; exact h1
      · exact h.trans _ _ _ h1 (hv2.1 p h2)
    · rw [if_neg h1]
      by_cases h3 : lt k1 k = true
      · rw [if_pos h3]
        refine List.pairwise_cons.2 ⟨?_, ih hv2.2⟩
        intro p hp
        rcases mem_update_key dflt f rest k p hp with h4 | ⟨q, hq, hq2⟩
        · rw [h4]; exact h3
        · rw [← hq2]; exact hv2.1 q hq
      · rw [if_neg h3]
        exact List.pairwise_cons.2 ⟨hv2.1, hv2.2⟩

/-- The entries left by `erase` are entries of the map, in the same order. -/
theorem erase_sublist (m : List (K × V)) (k : K) : (erase lt m k).Sublist m := by
  induction m with
  | nil => exact List.Sublist.refl _
  | cons q rest ih =>
    obtain ⟨k1, v⟩ := q
    rw [erase_cons]
    by_cases h1 : lt k k1 = true
    · rw [if_pos h1]
    · rw [if_neg h1]
      by_cases h3 : lt k1 k = true
      · rw [if_pos h3]; exact ih.cons₂ _
      · rw [if_neg h3]; exact List.sublist_cons_self _ _

/-- The representation invariant is kept by `erase`. -/
theorem valid_erase (m : List (K × V)) (k : K) (hv : Valid lt m) :
    Valid lt (erase lt m k) :=
  List.Pairwise.sublist (erase_sublist m k) hv

/-- Erasing a key that is not found changes nothing. -/
theorem erase_of_find_none (m : List (K × V)) (k : K) (hf : find lt m k = none) :
    erase lt m k = m := by
  induction m with
  | nil => rfl
  | cons q rest ih =>
    obtain ⟨k1, v⟩ := q
    rw [find_cons] at hf
    rw [erase_cons]
    by_cases h1 : lt k k1 = true
    · rw [if_pos h1]
    · rw [if_neg h1] at hf ⊢
      by_cases h3 : lt k1 k = true
      · rw [if_pos h3] at hf ⊢
        rw [ih hf]
      · rw [if_neg h3] at hf
        cases hf

/-- After `erase`, the erased key and its equivalents are not found. -/
theorem find_erase_equiv (h : StrictWeak lt) (m : List (K × V)) {k k2 : K}
    (hv : Valid lt m) (he : equiv lt k k2 = true) : find lt (erase lt m k) k2 = none := by
  induction m with
  | nil => rfl
  | cons q rest ih =>
    obtain ⟨k1, v⟩ := q
    have hv2 := List.pairwise_cons.1 hv
    rw [erase_cons]
    by_cases h1 : lt k k1 = true
    · rw [if_pos h1, find_cons, if_pos (h.lt_of_equiv_of_lt (equiv_symm he) h1)]
    · rw [if_neg h1]
      by_cases h3 : lt k1 k = true
      · have h4 : lt k1 k2 = true := h.lt_of_lt_of_equiv h3 he
        rw [if_pos h3, find_cons, if_neg (by rw [h.asymm h4]; simp), if_pos h4]
        exact ih hv2.2
      · rw [if_neg h3]
        have h5 : equiv lt k1 k = true := by
          rw [equiv_iff]; exact ⟨by simpa using h3, by simpa using h1⟩
        apply find_eq_none_of_below
        intro p hp
        exact h.lt_of_equiv_of_lt (equiv_symm (h.equiv_trans h5 he)) (hv2.1 p hp)

/-- After `erase`, every key not equivalent to the erased one is found as before. -/
theorem find_erase_other (h : StrictWeak lt) (m : List (K × V)) {k k2 : K}
    (hv : Valid lt m) (he : equiv lt k k2 = false) :
    find lt (erase lt m k) k2 = find lt m k2 := by
  induction m with
  | nil => rfl
  | cons q rest ih =>
    obtain ⟨k1, v⟩ := q
    have hv2 := List.pairwise_cons.1 hv
    rw [erase_cons]
    by_cases h1 : lt k k1 = true
    · rw [if_pos h1]
    · rw [if_neg h1]
      by_cases h3 : lt k1 k = true
      · rw [if_pos h3, find_cons, find_cons, ih hv2.2]
      · rw [if_neg h3, find_cons]
        have h5 : equiv lt k k1 = true := by
          rw [equiv_iff]; exact ⟨by simpa using h1, by simpa using h3⟩
        by_cases h6 : lt k2 k1 = true
        · rw [if_pos h6]
          apply find_eq_none_of_below
          intro p hp
          exact h.trans _ _ _ h6 (hv2.1 p hp)
        · rw [if_neg h6]
          by_cases h7 : lt k1 k2 = true
          · rw [if_pos h7]
          · exfalso
            have h8 : equiv lt k1 k2 = true := by
              rw [equiv_iff]; exact ⟨by simpa using h7, by simpa using h6⟩
            have := h.equiv_trans h5 h8
            rw [he] at this; cases this

/-- An entry of a valid map is found under its own key. -/
theorem find_of_mem (h : StrictWeak lt) (m : List (K × V)) (hv : Valid lt m)
    (k : K) (v : V) (hm : (k, v) ∈ m) : find lt m k = some v := by
  induction m with
  | nil => cases hm
  | cons q rest ih =>
    obtain ⟨k1, v1⟩ := q
    have hv2 := List.pairwise_cons.1 hv
    rw [find_cons]
    rcases List.mem_cons.1 hm with h2 | h2
    · cases h2
      simp [h.irrefl]
    · have h3 : lt k1 k = true := hv2.1 (k, v) h2
      rw [if_neg (by rw [h.asymm h3]; simp), if_pos h3]
      exact ih hv2.2 h2

/-- A found value belongs to an entry whose key is equivalent to the one sought. -/
theorem mem_of_find (m : List (K × V)) (k : K) (v : V) (hf : find lt m k = some v) :
    ∃ k1, (k1, v) ∈ m ∧ equiv lt k1 k = true := by
  induction m with
  | nil => cases hf
  | cons q rest ih =>
    obtain ⟨k1, v1⟩ := q
    rw [find_cons] at hf
    by_cases h1 : lt k k1 = true
    · rw [if_pos h1] at hf; cases hf
    · rw [if_neg h1] at hf
      by_cases h3 : lt k1 k = true
      · rw [if_pos h3] at hf
        obtain ⟨k2, hk2, he⟩ := ih hf
        exact ⟨k2, List.mem_cons_of_mem _ hk2, he⟩
      · rw [if_neg h3] at hf
        cases hf
        exact ⟨k1, List.mem_cons_self _ _, equiv_iff.2 ⟨by simpa using h3, by simpa using h1⟩⟩

end

end StdMap

/-- The comparator of the registry is a strict weak ordering. -/
theorem ptrLess_strictWeak : StdMap.StrictWeak ptrLess where
  irrefl := by intro a; simp [ptrLess]
  trans := by intro a b c; simp only [ptrLess, decide_eq_true_eq]; omega
  negtrans := by intro a b c; simp only [ptrLess, decide_eq_true_eq]; omega

/-- Two addresses are the same registry key exactly when they are equal. -/
theorem ptrLess_equiv_iff (a b : Nat) : StdMap.equiv ptrLess a b = true ↔ a = b := by
  simp only [StdMap.equiv_iff, ptrLess, decide_eq_false_iff_not]; omega

/-- In a valid registry an entry is present exactly when lookup returns it. -/
theorem registry_mem_iff_find (m : List (Nat × AllocationInfo))
    (hv : StdMap.Valid ptrLess m) (a : Nat) (info : AllocationInfo) :
    (a, info) ∈ m ↔ StdMap.find ptrLess m a = some info := by
  constructor
  · exact StdMap.find_of_mem ptrLess_strictWeak m hv a info
  · intro hf
    obtain ⟨k1, hk1, he⟩ := StdMap.mem_of_find m a info hf
    rw [(ptrLess_equiv_iff k1 a).1 he] at hk1
    exact hk1

namespace MemoryTracer

theorem run_append (t : MemoryTracer) (l : List Call) (c : Call) :
    t.run (l ++ [c]) = (t.run l).call c := by
  simp [run, List.foldl_append]

end MemoryTracer

theorem lastCall_append (l : List Call) (c : Call) (a : Nat) :
    lastCall (l ++ [c]) a = if c.addr = a then some c else lastCall l a := by
  simp only [lastCall, List.reverse_append, List.reverse_cons, List.reverse_nil,
    List.nil_append, List.singleton_append, List.find?_cons]
  by_cases h : c.addr = a
  · simp [h]
  · have hb : (c.addr == a) = false := by simpa using h
    simp [h, hb]

theorem lastCall_some (l : List Call) (a : Nat) (c : Call) (h : lastCall l a = some c) :
    c ∈ l ∧ c.addr = a := by
  unfold lastCall at h
  have h1 := List.mem_of_find?_eq_some h
  have h2 := List.find?_some h
  exact ⟨List.mem_reverse.1 h1, by simpa using h2⟩

namespace MemoryTracer

/-- The invariant of a tracing window: active, guard enabled, valid registry,
and lookup agrees with the record left outstanding by the calls so far. -/
theorem run_start_invariant (t : MemoryTracer) (hin : t.m_bTracingActive = false)
    (calls : List Call) :
    (t.Start.run calls).m_bTracingActive = true ∧
    (t.Start.run calls).m_bTracingEnabled = true ∧
    StdMap.Valid ptrLess (t.Start.run calls).m_mapAllocations ∧
    ∀ a, StdMap.find ptrLess (t.Start.run calls).m_mapAllocations a = outstanding calls a := by
  induction calls using List.reverseRecOn with
  | nil =>
    simp [run, Start, IsTracingActive, ScopedTraceDisabler.enter, ScopedTraceDisabler.leave,
      hin, StdMap.Valid, StdMap.find, outstanding, lastCall]
  | append_singleton l c ih =>
    obtain ⟨h1, h2, h3, h4⟩ := ih
    rw [run_append]
    generalize t.Start.run l = r at h1 h2 h3 h4
    cases c with
    | alloc p s cs =>
      simp only [call, RecordAllocation, IsTracingActive, h1, h2, ScopedTraceDisabler.enter,
        ScopedTraceDisabler.leave, Bool.not_true, Bool.or_self, Bool.false_eq_true, if_false]
      refine ⟨trivial, trivial, StdMap.valid_update ptrLess_strictWeak _ _ _ _ h3, ?_⟩
      intro a
      simp only [outstanding, lastCall_append, Call.addr]
      by_cases hpa : p = a
      · rw [if_pos hpa]
        rw [StdMap.find_update_equiv ptrLess_strictWeak _ _ _ ((ptrLess_equiv_iff p a).2 hpa)]
      · rw [if_neg hpa]
        rw [StdMap.find_update_other ptrLess_strictWeak]
        · rw [h4]; rfl
        · cases he : StdMap.equiv ptrLess p a with
          | false => rfl
          | true => exact absurd ((ptrLess_equiv_iff p a).1 he) hpa
    | free p =>
      simp only [call, RecordDeallocation, ScopedTraceDisabler.enter, ScopedTraceDisabler.leave]
      refine ⟨h1, trivial, StdMap.valid_erase _ _ h3, ?_⟩
      intro a
      simp only [outstanding, lastCall_append, Call.addr]
      by_cases hpa : p = a
      · rw [if_pos hpa]
        rw [StdMap.find_erase_equiv ptrLess_strictWeak _ h3 ((ptrLess_equiv_iff p a).2 hpa)]
      · rw [if_neg hpa]
        rw [StdMap.find_erase_other ptrLess_strictWeak _ h3]
        · rw [h4]; rfl
        · cases he : StdMap.equiv ptrLess p a with
          | false => rfl
          | true => exact absurd ((ptrLess_equiv_iff p a).1 he) hpa

end MemoryTracer

/-- The comparator of the leak-group map is a strict weak ordering. -/
theorem operator_lt_strictWeak : StdMap.StrictWeak StackTraceInfo.operator_lt where
  irrefl := StackTraceInfo.operator_lt_irrefl
  trans := StackTraceInfo.operator_lt_trans
  negtrans := StackTraceInfo.operator_lt_negtrans

/-- Key equivalence in the leak-group map is `operator==`. -/
theorem operator_lt_equiv (x y : StackTraceInfo) :
    StdMap.equiv StackTraceInfo.operator_lt x y = x.operator_eq y := by
  cases h : x.operator_eq y with
  | true =>
    exact StdMap.equiv_iff.2 ((StackTraceInfo.operator_eq_iff_not_lt x y).1 h)
  | false =>
    cases h2 : StdMap.equiv StackTraceInfo.operator_lt x y with
    | false => rfl
    | true =>
      have := (StackTraceInfo.operator_eq_iff_not_lt x y).2 (StdMap.equiv_iff.1 h2)
      rw [h] at this; cases this

theorem operator_eq_refl (x : StackTraceInfo) : x.operator_eq x = true := by
  rw [← operator_lt_equiv]; exact operator_lt_strictWeak.equiv_refl x

theorem operator_eq_symm (x y : StackTraceInfo) (h : x.operator_eq y = true) :
    y.operator_eq x = true := by
  rw [← operator_lt_equiv] at h ⊢; exact StdMap.equiv_symm h

theorem recordsWithStack_append (l : List (Nat × AllocationInfo)) (r : Nat × AllocationInfo)
    (x : StackTraceInfo) :
    recordsWithStack (l ++ [r]) x =
      if r.2.m_stStackTrace.operator_eq x = true then recordsWithStack l x ++ [r]
      else recordsWithStack l x := by
  unfold recordsWithStack
  by_cases h : r.2.m_stStackTrace.operator_eq x = true
  · simp [List.filter_append, h]
  · simp [List.filter_append, h]

theorem sumSizes_append (l : List (Nat × AllocationInfo)) (r : Nat × AllocationInfo) :
    sumSizes (l ++ [r]) = sumSizes l + r.2.m_uSize := by
  simp [sumSizes]

namespace MemoryTracer

theorem buildLeakGroups_append (l : List (Nat × AllocationInfo)) (r : Nat × AllocationInfo) :
    buildLeakGroups (l ++ [r]) = addRecord (buildLeakGroups l) r.2 := by
  simp [buildLeakGroups, List.foldl_append]

/-- The leak-group map keeps the representation invariant of `std::map`. -/
theorem buildLeakGroups_valid (l : List (Nat × AllocationInfo)) :
    StdMap.Valid StackTraceInfo.operator_lt (buildLeakGroups l) := by
  induction l using List.reverseRecOn with
  | nil => simp [buildLeakGroups, StdMap.Valid]
  | append_singleton l r ih =>
    rw [buildLeakGroups_append]
    exact StdMap.valid_update operator_lt_strictWeak _ _ _ _ ih

/-- What lookup in the leak-group map returns for a stack `x`: nothing when no
record has that stack, else a group with the number and the summed size of the
records with that stack (modulo `2^64`) and a stack equal to `x`. -/
theorem find_buildLeakGroups (l : List (Nat × AllocationInfo)) (x : StackTraceInfo) :
    ((StdMap.find StackTraceInfo.operator_lt (buildLeakGroups l) x).map
        (fun g => (g.m_uCount, g.m_uTotalSize)) =
      if recordsWithStack l x = [] then none
      else some ((recordsWithStack l x).length % 2 ^ 64,
                 sumSizes (recordsWithStack l x) % 2 ^ 64)) ∧
    ∀ g, StdMap.find StackTraceInfo.operator_lt (buildLeakGroups l) x = some g →
      g.m_stStackTrace.operator_eq x = true := by
  induction l using List.reverseRecOn with
  | nil => simp [buildLeakGroups, StdMap.find, recordsWithStack]
  | append_singleton l r ih =>
    obtain ⟨ih1, ih2⟩ := ih
    rw [buildLeakGroups_append, recordsWithStack_append]
    by_cases h : r.2.m_stStackTrace.operator_eq x = true
    · have he : StdMap.equiv StackTraceInfo.operator_lt r.2.m_stStackTrace x = true := by
        rw [operator_lt_equiv]; exact h
      rw [if_pos h]
      unfold addRecord
      rw [StdMap.find_update_equiv operator_lt_strictWeak _ _ _ he,
        StdMap.find_congr operator_lt_strictWeak _ he]
      constructor
      · rw [if_neg (by simp)]
        cases hf : StdMap.find StackTraceInfo.operator_lt (buildLeakGroups l) x with
        | none =>
          rw [hf] at ih1
          by_cases hr : recordsWithStack l x = []
          · simp [hr, LeakGroup.ctor, sumSizes]
          · rw [if_neg hr] at ih1; simp at ih1
        | some g =>
          rw [hf] at ih1
          by_cases hr : recordsWithStack l x = []
          · rw [if_pos hr] at ih1; simp at ih1
          · rw [if_neg hr] at ih1
            simp only [Option.map_some', Option.some.injEq, Prod.mk.injEq] at ih1
            simp only [Option.getD_some, Option.map_some', Option.some.injEq, Prod.mk.injEq,
              List.length_append, List.length_singleton, sumSizes_append, ih1.1, ih1.2]
            constructor
            · omega
            · omega
      · intro g hg
        simp only [Option.some.injEq] at hg
        rw [← hg]; exact h
    · have he : StdMap.equiv StackTraceInfo.operator_lt r.2.m_stStackTrace x = false := by
        rw [operator_lt_equiv]; simpa using h
      rw [if_neg h]
      unfold addRecord
      rw [StdMap.find_update_other operator_lt_strictWeak _ _ _ he]
      exact ⟨ih1, ih2⟩

end MemoryTracer

theorem outstanding_some_iff (calls : List Call) (a : Nat) :
    (∃ info, outstanding calls a = some info) ↔
      ∃ uSize callStack, lastCall calls a = some (Call.alloc a uSize callStack) := by
  unfold outstanding
  cases h : lastCall calls a with
  | none => simp
  | some c =>
    have hc := (lastCall_some calls a c h).2
    cases c with
    | alloc p s cs =>
      simp only [Call.addr] at hc
      subst hc
      simp
    | free p => simp

theorem outstanding_eq_of_lastCall (calls : List Call) (a uSize : Nat) (callStack : List Nat)
    (h : lastCall calls a = some (Call.alloc a uSize callStack)) :
    outstanding calls a = some (AllocationInfo.mk uSize (StackTraceCapturer.Capture callStack)) := by
  unfold outstanding
  rw [h]

/-- C1: from an inactive session, after `Start()` and any finite sequence of
`RecordAllocation` and `RecordDeallocation` calls, the guard is enabled at every
call, the registry is a valid map whose entries are exactly the records left
outstanding by the sequence: its key set is the set of addresses whose last
call is an allocation, each mapped to the size (and captured stack) of that last
allocation, and an address with no allocation in the sequence is absent,
whatever the registry held before `Start()`. -/
theorem window_registry_is_outstanding (t : MemoryTracer)
    (hin : t.m_bTracingActive = false) (calls : List Call) :
    (∀ n, (t.Start.run (calls.take n)).m_bTracingEnabled = true) ∧
    StdMap.Valid ptrLess (t.Start.run calls).m_mapAllocations ∧
    (∀ a info, (a, info) ∈ (t.Start.run calls).m_mapAllocations ↔
      outstanding calls a = some info) ∧
    (∀ a, a ∈ (t.Start.run calls).m_mapAllocations.map Prod.fst ↔
      ∃ uSize callStack, lastCall calls a = some (Call.alloc a uSize callStack)) ∧
    (∀ a uSize callStack, lastCall calls a = some (Call.alloc a uSize callStack) →
      StdMap.find ptrLess (t.Start.run calls).m_mapAllocations a =
        some (AllocationInfo.mk uSize (StackTraceCapturer.Capture callStack))) ∧
    (∀ a, (∀ uSize callStack, Call.alloc a uSize callStack ∉ calls) →
      a ∉ (t.Start.run calls).m_mapAllocations.map Prod.fst) := by
  obtain ⟨-, -, hv, hf⟩ := MemoryTracer.run_start_invariant t hin calls
  have hmem : ∀ a info, (a, info) ∈ (t.Start.run calls).m_mapAllocations ↔
      outstanding calls a = some info := by
    intro a info
    rw [registry_mem_iff_find _ hv, hf]
  have hkeys : ∀ a, a ∈ (t.Start.run calls).m_mapAllocations.map Prod.fst ↔
      ∃ uSize callStack, lastCall calls a = some (Call.alloc a uSize callStack) := by
    intro a
    rw [← outstanding_some_iff]
    constructor
    · intro h
      obtain ⟨p, hp, hpa⟩ := List.mem_map.1 h
      obtain ⟨b, info⟩ := p
      simp only at hpa
      subst hpa
      exact ⟨info, (hmem b info).1 hp⟩
    · rintro ⟨info, hi⟩
      exact List.mem_map.2 ⟨(a, info), (hmem a info).2 hi, rfl⟩
  refine ⟨fun n => (MemoryTracer.run_start_invariant t hin (calls.take n)).2.1, hv, hmem,
    hkeys, ?_, ?_⟩
  · intro a uSize callStack h
    rw [hf, outstanding_eq_of_lastCall calls a uSize callStack h]
  · intro a hno hmemk
    obtain ⟨uSize, callStack, h⟩ := (hkeys a).1 hmemk
    exact hno uSize callStack (lastCall_some calls a _ h).1

/-- C1, at a concrete window: two allocations, the first of them freed. -/
theorem window_registry_is_outstanding_witness :
    MemoryTracer.ctor.m_bTracingActive = false ∧
    lastCall [Call.alloc 16 100 [7, 8], Call.alloc 32 50 [7, 9], Call.free 16] 32 =
      some (Call.alloc 32 50 [7, 9]) ∧
    StdMap.find ptrLess (MemoryTracer.ctor.Start.run
        [Call.alloc 16 100 [7, 8], Call.alloc 32 50 [7, 9], Call.free 16]).m_mapAllocations 32 =
      some (AllocationInfo.mk 50 (StackTraceCapturer.Capture [7, 9])) ∧
    16 ∉ (MemoryTracer.ctor.Start.run
        [Call.alloc 16 100 [7, 8], Call.alloc 32 50 [7, 9], Call.free 16]).m_mapAllocations.map
          Prod.fst :=
  ⟨rfl, by decide,
    (window_registry_is_outstanding MemoryTracer.ctor rfl
      [Call.alloc 16 100 [7, 8], Call.alloc 32 50 [7, 9], Call.free 16]).2.2.2.2.1
        32 50 [7, 9] (by decide),
    fun h => by
      have h2 := ((window_registry_is_outstanding MemoryTracer.ctor rfl
        [Call.alloc 16 100 [7, 8], Call.alloc 32 50 [7, 9], Call.free 16]).2.2.2.1 16).1 h
      obtain ⟨uSize, callStack, h3⟩ := h2
      have h4 : lastCall [Call.alloc 16 100 [7, 8], Call.alloc 32 50 [7, 9], Call.free 16] 16 =
          some (Call.free 16) := by decide
      rw [h4] at h3
      cases h3⟩

/-- C5: `Start()` on an active session leaves registry and active flag
unchanged; on an inactive session it leaves the registry empty and the session
active; a second `Start()` changes nothing, and records made after a `Start()`
are retained by a further `Start()`. -/
theorem start_idempotent (t : MemoryTracer) :
    (t.m_bTracingActive = true →
      t.Start.m_mapAllocations = t.m_mapAllocations ∧
      t.Start.m_bTracingActive = t.m_bTracingActive) ∧
    (t.m_bTracingActive = false →
      t.Start.m_mapAllocations = [] ∧ t.Start.m_bTracingActive = true) ∧
    (t.Start.Start.m_mapAllocations = t.Start.m_mapAllocations ∧
      t.Start.Start.m_bTracingActive = t.Start.m_bTracingActive) ∧
    (∀ calls, t.m_bTracingActive = false →
      (t.Start.run calls).Start.m_mapAllocations = (t.Start.run calls).m_mapAllocations ∧
      (t.Start.run calls).Start.m_bTracingActive = (t.Start.run calls).m_bTracingActive) := by
  have hact : ∀ u : MemoryTracer, u.m_bTracingActive = true →
      u.Start.m_mapAllocations = u.m_mapAllocations ∧
      u.Start.m_bTracingActive = u.m_bTracingActive := by
    intro u h
    simp [MemoryTracer.Start, MemoryTracer.IsTracingActive, ScopedTraceDisabler.enter,
      ScopedTraceDisabler.leave, h]
  have hstart : t.Start.m_bTracingActive = true := by
    cases h : t.m_bTracingActive <;>
      simp [MemoryTracer.Start, MemoryTracer.IsTracingActive, ScopedTraceDisabler.enter,
        ScopedTraceDisabler.leave, h]
  refine ⟨hact t, ?_, hact _ hstart, ?_⟩
  · intro h
    simp [MemoryTracer.Start, MemoryTracer.IsTracingActive, ScopedTraceDisabler.enter,
      ScopedTraceDisabler.leave, h]
  · intro calls h
    exact hact _ (MemoryTracer.run_start_invariant t h calls).1

/-- C5, at a concrete state: an active session holding one record. -/
theorem start_idempotent_witness :
    (MemoryTracer.ctor.Start.RecordAllocation 16 100 [7, 8]).m_bTracingActive = true ∧
    (MemoryTracer.ctor.Start.RecordAllocation 16 100 [7, 8]).Start.m_mapAllocations =
      (MemoryTracer.ctor.Start.RecordAllocation 16 100 [7, 8]).m_mapAllocations :=
  ⟨by decide,
    ((start_idempotent (MemoryTracer.ctor.Start.RecordAllocation 16 100 [7, 8])).1
      (by decide)).1⟩

/-- C6: `End()` on an inactive session returns the report of an empty snapshot,
the no-leaks message, and leaves registry and active flag as they were. -/
theorem end_inactive_no_effect (p : Platform) (t : MemoryTracer)
    (hin : t.m_bTracingActive = false) :
    (MemoryTracer.End p t).1 = MemoryTracer.GenerateLeakReport p [] ∧
    (MemoryTracer.End p t).1 = "No memory leaks detected.\n" ∧
    (MemoryTracer.End p t).2.m_mapAllocations = t.m_mapAllocations ∧
    (MemoryTracer.End p t).2.m_bTracingActive = t.m_bTracingActive := by
  simp [MemoryTracer.End, MemoryTracer.IsTracingActive, ScopedTraceDisabler.enter,
    ScopedTraceDisabler.leave, hin, MemoryTracer.GenerateLeakReport]

/-- C6, at the freshly constructed (inactive) tracer. -/
theorem end_inactive_no_effect_witness :
    MemoryTracer.ctor.m_bTracingActive = false ∧
    (MemoryTracer.End refPlatform MemoryTracer.ctor).2.m_mapAllocations =
      MemoryTracer.ctor.m_mapAllocations :=
  ⟨rfl, (end_inactive_no_effect refPlatform MemoryTracer.ctor rfl).2.2.1⟩

/-- C7: `End()` on an active session with registry contents `M` returns
`GenerateLeakReport(M)` and leaves the registry empty and the session inactive;
an immediately following `End()` returns the report of an empty snapshot. -/
theorem end_active_takes_snapshot (p : Platform) (t : MemoryTracer)
    (hact : t.m_bTracingActive = true) :
    (MemoryTracer.End p t).1 = MemoryTracer.GenerateLeakReport p t.m_mapAllocations ∧
    (MemoryTracer.End p t).2.m_mapAllocations = [] ∧
    (MemoryTracer.End p t).2.m_bTracingActive = false ∧
    (MemoryTracer.End p (MemoryTracer.End p t).2).1 = MemoryTracer.GenerateLeakReport p [] ∧
    (MemoryTracer.End p (MemoryTracer.End p t).2).1 = "No memory leaks detected.\n" := by
  simp [MemoryTracer.End, MemoryTracer.IsTracingActive, ScopedTraceDisabler.enter,
    ScopedTraceDisabler.leave, hact, MemoryTracer.GenerateLeakReport]

/-- C7, at a concrete state: an active session holding one record. -/
theorem end_active_takes_snapshot_witness :
    (MemoryTracer.ctor.Start.RecordAllocation 16 100 [7, 8]).m_bTracingActive = true ∧
    (MemoryTracer.End refPlatform
        (MemoryTracer.ctor.Start.RecordAllocation 16 100 [7, 8])).1 =
      MemoryTracer.GenerateLeakReport refPlatform
        (MemoryTracer.ctor.Start.RecordAllocation 16 100 [7, 8]).m_mapAllocations :=
  ⟨by decide,
    (end_active_takes_snapshot refPlatform
      (MemoryTracer.ctor.Start.RecordAllocation 16 100 [7, 8]) (by decide)).1⟩

/-- C8: `RecordDeallocation(a)` is total; when `a` has no record the registry is
unchanged, and in general the entries afterwards are exactly the entries of the
other addresses, each with its record unchanged. -/
theorem record_deallocation_effect (t : MemoryTracer) (pPtr : Nat)
    (hv : StdMap.Valid ptrLess t.m_mapAllocations) :
    ((∀ info, (pPtr, info) ∉ t.m_mapAllocations) →
      (t.RecordDeallocation pPtr).m_mapAllocations = t.m_mapAllocations) ∧
    (∀ b info, (b, info) ∈ (t.RecordDeallocation pPtr).m_mapAllocations ↔
      (b ≠ pPtr ∧ (b, info) ∈ t.m_mapAllocations)) ∧
    StdMap.find ptrLess (t.RecordDeallocation pPtr).m_mapAllocations pPtr = none ∧
    (∀ b, b ≠ pPtr →
      StdMap.find ptrLess (t.RecordDeallocation pPtr).m_mapAllocations b =
        StdMap.find ptrLess t.m_mapAllocations b) ∧
    StdMap.Valid ptrLess (t.RecordDeallocation pPtr).m_mapAllocations ∧
    (t.RecordDeallocation pPtr).m_bTracingActive = t.m_bTracingActive := by
  have hmap : (t.RecordDeallocation pPtr).m_mapAllocations =
      StdMap.erase ptrLess t.m_mapAllocations pPtr := rfl
  have hv2 : StdMap.Valid ptrLess (StdMap.erase ptrLess t.m_mapAllocations pPtr) :=
    StdMap.valid_erase _ _ hv
  have hsame : StdMap.find ptrLess (StdMap.erase ptrLess t.m_mapAllocations pPtr) pPtr = none :=
    StdMap.find_erase_equiv ptrLess_strictWeak _ hv ((ptrLess_equiv_iff pPtr pPtr).2 rfl)
  have hother : ∀ b, b ≠ pPtr →
      StdMap.find ptrLess (StdMap.erase ptrLess t.m_mapAllocations pPtr) b =
        StdMap.find ptrLess t.m_mapAllocations b := by
    intro b hb
    apply StdMap.find_erase_other ptrLess_strictWeak _ hv
    cases he : StdMap.equiv ptrLess pPtr b with
    | false => rfl
    | true => exact absurd ((ptrLess_equiv_iff pPtr b).1 he).symm hb
  rw [hmap]
  refine ⟨?_, ?_, hsame, hother, hv2, rfl⟩
  · intro hno
    apply StdMap.erase_of_find_none
    cases hf : StdMap.find ptrLess t.m_mapAllocations pPtr with
    | none => rfl
    | some info =>
      exact absurd ((registry_mem_iff_find _ hv pPtr info).2 hf) (hno info)
  · intro b info
    rw [registry_mem_iff_find _ hv2, registry_mem_iff_find _ hv]
    by_cases hb : b = pPtr
    · subst hb
      rw [hsame]
      simp
    · rw [hother b hb]
      simp [hb]

/-- C8, at a concrete registry: freeing the first of two recorded addresses. -/
theorem record_deallocation_effect_witness :
    StdMap.Valid ptrLess
      ((MemoryTracer.ctor.Start.RecordAllocation 16 100 [7, 8]).RecordAllocation
        32 50 [7, 9]).m_mapAllocations ∧
    StdMap.find ptrLess
      ((((MemoryTracer.ctor.Start.RecordAllocation 16 100 [7, 8]).RecordAllocation
        32 50 [7, 9]).RecordDeallocation 16).m_mapAllocations) 16 = none :=
  ⟨by simp [StdMap.Valid, MemoryTracer.RecordAllocation, MemoryTracer.Start, MemoryTracer.ctor,
      MemoryTracer.IsTracingActive, ScopedTraceDisabler.enter, ScopedTraceDisabler.leave,
      StdMap.update, ptrLess],
    (record_deallocation_effect
      ((MemoryTracer.ctor.Start.RecordAllocation 16 100 [7, 8]).RecordAllocation 32 50 [7, 9])
      16
      (by simp [StdMap.Valid, MemoryTracer.RecordAllocation, MemoryTracer.Start,
        MemoryTracer.ctor, MemoryTracer.IsTracingActive, ScopedTraceDisabler.enter,
        ScopedTraceDisabler.leave, StdMap.update, ptrLess])).2.2.1⟩

/-- C9: `RecordAllocation(a, s)` returns the state unchanged when the session is
inactive or the guard is suppressed; otherwise the entries afterwards are the
record `{s, captured stack}` for `a` together with the unchanged entries of all
other addresses, and the active flag and the guard are as before. -/
theorem record_allocation_effect (t : MemoryTracer) (pPtr uSize : Nat) (callStack : List Nat)
    (hv : StdMap.Valid ptrLess t.m_mapAllocations) :
    ((t.m_bTracingActive = false ∨ t.m_bTracingEnabled = false) →
      t.RecordAllocation pPtr uSize callStack = t) ∧
    (t.m_bTracingActive = true → t.m_bTracingEnabled = true →
      (∀ b info, (b, info) ∈ (t.RecordAllocation pPtr uSize callStack).m_mapAllocations ↔
        ((b = pPtr ∧
            info = AllocationInfo.mk uSize (StackTraceCapturer.Capture callStack)) ∨
          (b ≠ pPtr ∧ (b, info) ∈ t.m_mapAllocations))) ∧
      StdMap.find ptrLess (t.RecordAllocation pPtr uSize callStack).m_mapAllocations pPtr =
        some (AllocationInfo.mk uSize (StackTraceCapturer.Capture callStack)) ∧
      (∀ b, b ≠ pPtr →
        StdMap.find ptrLess (t.RecordAllocation pPtr uSize callStack).m_mapAllocations b =
          StdMap.find ptrLess t.m_mapAllocations b) ∧
      StdMap.Valid ptrLess (t.RecordAllocation pPtr uSize callStack).m_mapAllocations ∧
      (t.RecordAllocation pPtr uSize callStack).m_bTracingActive = t.m_bTracingActive ∧
      (t.RecordAllocation pPtr uSize callStack).m_bTracingEnabled = t.m_bTracingEnabled) := by
  constructor
  · rintro (h | h) <;> simp [MemoryTracer.RecordAllocation, MemoryTracer.IsTracingActive, h]
  · intro ha hg
    have hmap : (t.RecordAllocation pPtr uSize callStack).m_mapAllocations =
        StdMap.update ptrLess (AllocationInfo.mk 0 StackTraceInfo.ctor)
          (fun _ => AllocationInfo.mk uSize (StackTraceCapturer.Capture callStack))
          t.m_mapAllocations pPtr := by
      simp [MemoryTracer.RecordAllocation, MemoryTracer.IsTracingActive, ha, hg,
        ScopedTraceDisabler.enter, ScopedTraceDisabler.leave]
    have hflags : (t.RecordAllocation pPtr uSize callStack).m_bTracingActive =
          t.m_bTracingActive ∧
        (t.RecordAllocation pPtr uSize callStack).m_bTracingEnabled = t.m_bTracingEnabled := by
      simp [MemoryTracer.RecordAllocation, MemoryTracer.IsTracingActive, ha, hg,
        ScopedTraceDisabler.enter, ScopedTraceDisabler.leave]
    rw [hmap]
    have hv2 := StdMap.valid_update ptrLess_strictWeak (AllocationInfo.mk 0 StackTraceInfo.ctor)
      (fun _ => AllocationInfo.mk uSize (StackTraceCapturer.Capture callStack))
      t.m_mapAllocations pPtr hv
    have hsame := StdMap.find_update_equiv ptrLess_strictWeak
      (AllocationInfo.mk 0 StackTraceInfo.ctor)
      (fun _ => AllocationInfo.mk uSize (StackTraceCapturer.Capture callStack))
      t.m_mapAllocations ((ptrLess_equiv_iff pPtr pPtr).2 rfl)
    have hother : ∀ b, b ≠ pPtr →
        StdMap.find ptrLess (StdMap.update ptrLess (AllocationInfo.mk 0 StackTraceInfo.ctor)
          (fun _ => AllocationInfo.mk uSize (StackTraceCapturer.Capture callStack))
          t.m_mapAllocations pPtr) b = StdMap.find ptrLess t.m_mapAllocations b := by
      intro b hb
      apply StdMap.find_update_other ptrLess_strictWeak
      cases he : StdMap.equiv ptrLess pPtr b with
      | false => rfl
      | true => exact absurd ((ptrLess_equiv_iff pPtr b).1 he).symm hb
    refine ⟨?_, hsame, hother, hv2, hflags.1, hflags.2⟩
    intro b info
    rw [registry_mem_iff_find _ hv2, registry_mem_iff_find _ hv]
    by_cases hb : b = pPtr
    · subst hb
      rw [hsame]
      simp [eq_comm]
    · rw [hother b hb]
      simp [hb]

/-- C9, at a concrete state: a second allocation in an active session. -/
theorem record_allocation_effect_witness :
    StdMap.Valid ptrLess (MemoryTracer.ctor.Start.RecordAllocation 16 100 [7, 8]).m_mapAllocations ∧
    (MemoryTracer.ctor.Start.RecordAllocation 16 100 [7, 8]).m_bTracingActive = true ∧
    (MemoryTracer.ctor.Start.RecordAllocation 16 100 [7, 8]).m_bTracingEnabled = true ∧
    StdMap.find ptrLess
      ((MemoryTracer.ctor.Start.RecordAllocation 16 100 [7, 8]).RecordAllocation
        32 50 [7, 9]).m_mapAllocations 32 =
      some (AllocationInfo.mk 50 (StackTraceCapturer.Capture [7, 9])) :=
  ⟨by simp [StdMap.Valid, MemoryTracer.RecordAllocation, MemoryTracer.Start, MemoryTracer.ctor,
      MemoryTracer.IsTracingActive, ScopedTraceDisabler.enter, ScopedTraceDisabler.leave,
      StdMap.update],
    by decide, by decide,
    ((record_allocation_effect (MemoryTracer.ctor.Start.RecordAllocation 16 100 [7, 8])
      32 50 [7, 9]
      (by simp [StdMap.Valid, MemoryTracer.RecordAllocation, MemoryTracer.Start,
        MemoryTracer.ctor, MemoryTracer.IsTracingActive, ScopedTraceDisabler.enter,
        ScopedTraceDisabler.leave, StdMap.update])).2 (by decide) (by decide)).2.1⟩

/-- C10: `x == y` holds exactly when the hashes are equal, the counts are equal
and the addresses at every index below the count are equal. -/
theorem stack_equality_characterised (x y : StackTraceInfo) :
    x.operator_eq y = true ↔
      (x.m_uHash = y.m_uHash ∧ x.m_uCount = y.m_uCount ∧
        ∀ i, i < x.m_uCount → x.frame i = y.frame i) := by
  unfold StackTraceInfo.operator_eq
  by_cases a : x.m_uHash = y.m_uHash
  · by_cases b : x.m_uCount = y.m_uCount
    · simp only [a, b, bne_self_eq_false, Bool.false_eq_true, if_false, true_and]
      rw [StackTraceInfo.eqLoop_iff]
      simp
    · simp [a, b]
  · simp [a]

namespace MemoryTracer

/-- The leak groups of a snapshot of two records with equal stacks. -/
theorem buildLeakGroups_pair (a1 a2 : Nat) (r1 r2 : AllocationInfo)
    (h : r1.m_stStackTrace.operator_eq r2.m_stStackTrace = true) :
    buildLeakGroups [(a1, r1), (a2, r2)] =
      [(r1.m_stStackTrace,
        LeakGroup.mk 2 ((r1.m_uSize + r2.m_uSize) % 2 ^ 64) r2.m_stStackTrace)] := by
  have h2 := (StackTraceInfo.operator_eq_iff_not_lt _ _).1 h
  simp [buildLeakGroups, addRecord, StdMap.update, LeakGroup.ctor, h2.1, h2.2]

/-- The registry after three allocations at distinct addresses and the release
of one of them holds the two other addresses. -/
theorem registry_three_allocs_one_freed (t : MemoryTracer) (hin : t.m_bTracingActive = false)
    (uSize : Nat) (callStack : List Nat) (a1 a2 a3 k : Nat)
    (h12 : a1 ≠ a2) (h13 : a1 ≠ a3) (h23 : a2 ≠ a3) (hk : k = a1 ∨ k = a2 ∨ k = a3) :
    ∃ x y, (t.Start.run [Call.alloc a1 uSize callStack, Call.alloc a2 uSize callStack,
        Call.alloc a3 uSize callStack, Call.free k]).m_mapAllocations =
      [(x, AllocationInfo.mk uSize (StackTraceCapturer.Capture callStack)),
       (y, AllocationInfo.mk uSize (StackTraceCapturer.Capture callStack))] := by
  generalize hC : StackTraceCapturer.Capture callStack = C
  have e12 : a1 < a2 ∨ a2 < a1 := by omega
  have e13 : a1 < a3 ∨ a3 < a1 := by omega
  have e23 : a2 < a3 ∨ a3 < a2 := by omega
  rcases e12 with e12 | e12 <;> rcases e13 with e13 | e13 <;> rcases e23 with e23 | e23 <;>
    rcases hk with hk | hk | hk <;> subst hk <;>
    first
    | omega
    | (simp [run, call, Start, RecordAllocation, RecordDeallocation, IsTracingActive,
        ScopedTraceDisabler.enter, ScopedTraceDisabler.leave, StdMap.update, StdMap.erase,
        ptrLess, hin, hC, e12, e13, e23, Nat.lt_asymm e12, Nat.lt_asymm e13, Nat.lt_asymm e23,
        Nat.lt_irrefl])

/-- A group of the leak-group map, looked up under its own key. -/
theorem group_facts (snapshot : List (Nat × AllocationInfo)) (g : GroupEntry)
    (hg : g ∈ buildLeakGroups snapshot) :
    recordsWithStack snapshot g.1 ≠ [] ∧
    g.2.m_uCount = (recordsWithStack snapshot g.1).length % 2 ^ 64 ∧
    g.2.m_uTotalSize = sumSizes (recordsWithStack snapshot g.1) % 2 ^ 64 ∧
    g.2.m_stStackTrace.operator_eq g.1 = true := by
  have hf : StdMap.find StackTraceInfo.operator_lt (buildLeakGroups snapshot) g.1 = some g.2 :=
    StdMap.find_of_mem operator_lt_strictWeak _ (buildLeakGroups_valid snapshot) g.1 g.2 hg
  obtain ⟨h1, h2⟩ := find_buildLeakGroups snapshot g.1
  rw [hf] at h1
  by_cases hr : recordsWithStack snapshot g.1 = []
  · rw [if_pos hr] at h1; simp at h1
  · rw [if_neg hr] at h1
    simp only [Option.map_some', Option.some.injEq, Prod.mk.injEq] at h1
    exact ⟨hr, h1.1, h1.2, h2 g.2 hf⟩

end MemoryTracer

/-- C2: the aggregation of `GenerateLeakReport` builds exactly one leak group per
distinct stack of the snapshot (every record has a group with its stack, no two
groups have equal stacks, every group has the stack of some record); the count
of a group is the number of records with its stack, and its total size is the
sum of their sizes modulo `2^64`. Two records with equal stacks give one group
with count 2 and the sum of the two sizes; three 100-byte allocations from one
stack, one of them freed, give one group with count 2, total 200, average 100. -/
theorem leak_groups_aggregate (snapshot : List (Nat × AllocationInfo))
    (hne : snapshot ≠ []) (hsz : snapshot.length < 2 ^ 64) :
    MemoryTracer.buildLeakGroups snapshot ≠ [] ∧
    (∀ r ∈ snapshot, ∃ g ∈ MemoryTracer.buildLeakGroups snapshot,
      g.1.operator_eq r.2.m_stStackTrace = true) ∧
    (MemoryTracer.buildLeakGroups snapshot).Pairwise
      (fun g h => g.1.operator_eq h.1 = false) ∧
    (∀ g ∈ MemoryTracer.buildLeakGroups snapshot, ∃ r ∈ snapshot,
      g.1.operator_eq r.2.m_stStackTrace = true) ∧
    (∀ g ∈ MemoryTracer.buildLeakGroups snapshot,
      g.2.m_uCount = (recordsWithStack snapshot g.1).length ∧
      g.2.m_uTotalSize = sumSizes (recordsWithStack snapshot g.1) % 2 ^ 64 ∧
      g.2.m_stStackTrace.operator_eq g.1 = true) ∧
    (∀ (a1 a2 : Nat) (r1 r2 : AllocationInfo),
      r1.m_stStackTrace.operator_eq r2.m_stStackTrace = true →
      ∃ g, MemoryTracer.buildLeakGroups [(a1, r1), (a2, r2)] = [g] ∧
        g.2.m_uCount = 2 ∧ g.2.m_uTotalSize = (r1.m_uSize + r2.m_uSize) % 2 ^ 64) ∧
    (∀ (t : MemoryTracer) (callStack : List Nat) (a1 a2 a3 k : Nat),
      t.m_bTracingActive = false → a1 ≠ a2 → a1 ≠ a3 → a2 ≠ a3 →
      (k = a1 ∨ k = a2 ∨ k = a3) →
      ∃ g, MemoryTracer.buildLeakGroups
          (t.Start.run [Call.alloc a1 100 callStack, Call.alloc a2 100 callStack,
            Call.alloc a3 100 callStack, Call.free k]).m_mapAllocations = [g] ∧
        g.2.m_uCount = 2 ∧ g.2.m_uTotalSize = 200 ∧ MemoryTracer.averageSize g.2 = 100) := by
  have hfind : ∀ r ∈ snapshot, ∃ g ∈ MemoryTracer.buildLeakGroups snapshot,
      g.1.operator_eq r.2.m_stStackTrace = true := by
    intro r hr
    obtain ⟨h1, -⟩ := MemoryTracer.find_buildLeakGroups snapshot r.2.m_stStackTrace
    have hmem : r ∈ recordsWithStack snapshot r.2.m_stStackTrace := by
      unfold recordsWithStack
      exact List.mem_filter.2 ⟨hr, operator_eq_refl _⟩
    have hrne : recordsWithStack snapshot r.2.m_stStackTrace ≠ [] :=
      List.ne_nil_of_mem hmem
    rw [if_neg hrne] at h1
    cases hf : StdMap.find StackTraceInfo.operator_lt (MemoryTracer.buildLeakGroups snapshot)
        r.2.m_stStackTrace with
    | none => rw [hf] at h1; simp at h1
    | some v =>
      obtain ⟨k1, hk1, he⟩ := StdMap.mem_of_find _ _ _ hf
      rw [operator_lt_equiv] at he
      exact ⟨(k1, v), hk1, he⟩
  refine ⟨?_, hfind, ?_, ?_, ?_, ?_, ?_⟩
  · cases snapshot with
    | nil => exact absurd rfl hne
    | cons r rest =>
      obtain ⟨g, hg, -⟩ := hfind r (List.mem_cons_self _ _)
      exact List.ne_nil_of_mem hg
  · refine List.Pairwise.imp ?_ (MemoryTracer.buildLeakGroups_valid snapshot)
    intro g h hlt
    cases he : g.1.operator_eq h.1 with
    | false => rfl
    | true =>
      have := ((StackTraceInfo.operator_eq_iff_not_lt _ _).1 he).1
      rw [hlt] at this; cases this
  · intro g hg
    obtain ⟨hr, -, -, -⟩ := MemoryTracer.group_facts snapshot g hg
    obtain ⟨r, hrm⟩ := List.exists_mem_of_ne_nil _ hr
    unfold recordsWithStack at hrm
    obtain ⟨hr1, hr2⟩ := List.mem_filter.1 hrm
    exact ⟨r, hr1, operator_eq_symm _ _ hr2⟩
  · intro g hg
    obtain ⟨-, hc, ht, hs⟩ := MemoryTracer.group_facts snapshot g hg
    refine ⟨?_, ht, hs⟩
    rw [hc]
    apply Nat.mod_eq_of_lt
    have : (recordsWithStack snapshot g.1).length ≤ snapshot.length := by
      unfold recordsWithStack
      exact List.length_filter_le _ _
    omega
  · intro a1 a2 r1 r2 h
    exact ⟨_, MemoryTracer.buildLeakGroups_pair a1 a2 r1 r2 h, rfl, rfl⟩
  · intro t callStack a1 a2 a3 k hin h12 h13 h23 hk
    obtain ⟨x, y, hxy⟩ :=
      MemoryTracer.registry_three_allocs_one_freed t hin 100 callStack a1 a2 a3 k h12 h13 h23 hk
    rw [hxy]
    exact ⟨_, MemoryTracer.buildLeakGroups_pair x y _ _ (operator_eq_refl _), rfl, rfl,
      by simp [MemoryTracer.averageSize]⟩

/-- C2, at a concrete snapshot: two records from one stack and one from another. -/
theorem leak_groups_aggregate_witness :
    ([(16, AllocationInfo.mk 100 (StackTraceCapturer.Capture [7, 8])),
      (32, AllocationInfo.mk 50 (StackTraceCapturer.Capture [7, 9])),
      (48, AllocationInfo.mk 100 (StackTraceCapturer.Capture [7, 8]))] :
        List (Nat × AllocationInfo)) ≠ [] ∧
    ([(16, AllocationInfo.mk 100 (StackTraceCapturer.Capture [7, 8])),
      (32, AllocationInfo.mk 50 (StackTraceCapturer.Capture [7, 9])),
      (48, AllocationInfo.mk 100 (StackTraceCapturer.Capture [7, 8]))] :
        List (Nat × AllocationInfo)).length < 2 ^ 64 ∧
    (MemoryTracer.buildLeakGroups
      [(16, AllocationInfo.mk 100 (StackTraceCapturer.Capture [7, 8])),
       (32, AllocationInfo.mk 50 (StackTraceCapturer.Capture [7, 9])),
       (48, AllocationInfo.mk 100 (StackTraceCapturer.Capture [7, 8]))]).Pairwise
      (fun g h => g.1.operator_eq h.1 = false) :=
  ⟨by simp, by simp,
    (leak_groups_aggregate
      [(16, AllocationInfo.mk 100 (StackTraceCapturer.Capture [7, 8])),
       (32, AllocationInfo.mk 50 (StackTraceCapturer.Capture [7, 9])),
       (48, AllocationInfo.mk 100 (StackTraceCapturer.Capture [7, 8]))]
      (by simp) (by simp)).2.2.1⟩

/-- The reference insertion sort meets the contract of `std::sort` for the
comparator of the report. -/
theorem insertionSort_isStdSort : IsStdSort insertionSort MemoryTracer.sortComp := by
  intro l
  have htotal : IsTotal GroupEntry (fun a b => MemoryTracer.sortComp b a = false) :=
    ⟨by intro a b; simp only [MemoryTracer.sortComp, decide_eq_false_iff_not]; omega⟩
  have htrans : IsTrans GroupEntry (fun a b => MemoryTracer.sortComp b a = false) :=
    ⟨by intro a b c; simp only [MemoryTracer.sortComp, decide_eq_false_iff_not]; omega⟩
  exact ⟨List.perm_insertionSort _ l, List.sorted_insertionSort _ l⟩

/-- C4, as stated, fails: the report of a session started and ended with no
allocation is not the bare message, it carries a line terminator. -/
theorem bare_message_is_not_the_report :
    (MemoryTracer.End refPlatform MemoryTracer.ctor.Start).1 ≠ "No memory leaks detected." := by
  decide

/-- C4, amended: `End()` with an empty registry returns the message
"No memory leaks detected." followed by one newline, and nothing else. -/
theorem end_empty_report (p : Platform) (t : MemoryTracer) (h : t.m_mapAllocations = []) :
    (MemoryTracer.End p t).1 = "No memory leaks detected.\n" := by
  cases ha : t.m_bTracingActive <;>
    simp [MemoryTracer.End, MemoryTracer.IsTracingActive, ScopedTraceDisabler.enter,
      ScopedTraceDisabler.leave, ha, h, MemoryTracer.GenerateLeakReport]

/-- C4 amended, at a session started and ended with no allocation. -/
theorem end_empty_report_witness :
    MemoryTracer.ctor.Start.m_mapAllocations = [] ∧
    (MemoryTracer.End refPlatform MemoryTracer.ctor.Start).1 = "No memory leaks detected.\n" :=
  ⟨rfl, end_empty_report refPlatform MemoryTracer.ctor.Start rfl⟩

namespace StackTraceInfo

/-- The loop of `operator<` answers true exactly when the stacks first differ,
below the bound, at an index where the left address is the smaller one. -/
theorem ltLoop_iff (x y : StackTraceInfo) (n i : Nat) :
    ltLoop x y n i = true ↔
      ∃ j, j < n ∧ (∀ k, k < j → x.frame (i + k) = y.frame (i + k)) ∧
        x.frame (i + j) < y.frame (i + j) := by
  induction n generalizing i with
  | zero => simp [ltLoop]
  | succ n ih =>
    rw [ltLoop_succ]
    by_cases h : x.frame i = y.frame i
    · rw [if_pos h, ih]
      constructor
      · rintro ⟨j, hj, hk, hlt⟩
        refine ⟨j + 1, by omega, ?_, ?_⟩
        · intro k hkj
          cases k with
          | zero => simpa using h
          | succ k =>
            have := hk k (by omega)
            rw [show i + (k + 1) = i + 1 + k by omega]
            exact this
        · rw [show i + (j + 1) = i + 1 + j by omega]
          exact hlt
      · rintro ⟨j, hj, hk, hlt⟩
        cases j with
        | zero =>
          simp only [Nat.add_zero] at hlt
          omega
        | succ j =>
          refine ⟨j, by omega, ?_, ?_⟩
          · intro k hkj
            have := hk (k + 1) (by omega)
            rw [show i + 1 + k = i + (k + 1) by omega]
            exact this
          · rw [show i + 1 + j = i + (j + 1) by omega]
            exact hlt
    · rw [if_neg h]
      simp only [decide_eq_true_eq]
      constructor
      · intro hlt
        exact ⟨0, by omega, by intro k hk; omega, by simpa using hlt⟩
      · rintro ⟨j, hj, hk, hlt⟩
        cases j with
        | zero => simpa using hlt
        | succ j =>
          have := hk 0 (by omega)
          simp only [Nat.add_zero] at this
          exact absurd this h

/-- The member `operator<` as the lexicographic comparison of hash, count and
the addresses below the count. -/
theorem operator_lt_iff_lex (x y : StackTraceInfo) :
    operator_lt x y = true ↔
      (x.m_uHash < y.m_uHash ∨
        (x.m_uHash = y.m_uHash ∧
          (x.m_uCount < y.m_uCount ∨
            (x.m_uCount = y.m_uCount ∧
              ∃ j, j < x.m_uCount ∧ (∀ k, k < j → x.frame k = y.frame k) ∧
                x.frame j < y.frame j)))) := by
  unfold operator_lt
  by_cases a : x.m_uHash = y.m_uHash
  · by_cases b : x.m_uCount = y.m_uCount
    · simp only [a, b, bne_self_eq_false, Bool.false_eq_true, if_false, Nat.lt_irrefl,
        false_or, true_and]
      rw [ltLoop_iff]
      simp
    · simp [a, b]
  · simp [a]

end StackTraceInfo

/-- C11: the member `operator<` is the lexicographic order on hash, count and
the addresses below the count; it is irreflexive and transitive, exactly one of
`x < y`, `y < x`, `x == y` holds for every two stacks, equivalence under it is
`operator==`, and it is a strict weak ordering as `std::map` requires of the
comparator of its keys. -/
theorem operator_lt_strict_total :
    (∀ x y : StackTraceInfo, x.operator_lt y = true ↔
      (x.m_uHash < y.m_uHash ∨
        (x.m_uHash = y.m_uHash ∧
          (x.m_uCount < y.m_uCount ∨
            (x.m_uCount = y.m_uCount ∧
              ∃ j, j < x.m_uCount ∧ (∀ k, k < j → x.frame k = y.frame k) ∧
                x.frame j < y.frame j))))) ∧
    (∀ x : StackTraceInfo, x.operator_lt x = false) ∧
    (∀ x y z : StackTraceInfo, x.operator_lt y = true → y.operator_lt z = true →
      x.operator_lt z = true) ∧
    (∀ x y : StackTraceInfo,
      (x.operator_lt y = true ∧ y.operator_lt x = false ∧ x.operator_eq y = false) ∨
      (x.operator_lt y = false ∧ y.operator_lt x = true ∧ x.operator_eq y = false) ∨
      (x.operator_lt y = false ∧ y.operator_lt x = false ∧ x.operator_eq y = true)) ∧
    (∀ x y : StackTraceInfo, x.operator_eq y = true ↔
      (x.operator_lt y = false ∧ y.operator_lt x = false)) ∧
    StdMap.StrictWeak StackTraceInfo.operator_lt := by
  refine ⟨StackTraceInfo.operator_lt_iff_lex, StackTraceInfo.operator_lt_irrefl,
    StackTraceInfo.operator_lt_trans, ?_, StackTraceInfo.operator_eq_iff_not_lt,
    operator_lt_strictWeak⟩
  intro x y
  cases hxy : x.operator_lt y with
  | true =>
    have hyx := operator_lt_strictWeak.asymm hxy
    left
    refine ⟨rfl, hyx, ?_⟩
    cases he : x.operator_eq y with
    | false => rfl
    | true =>
      have := ((StackTraceInfo.operator_eq_iff_not_lt x y).1 he).1
      rw [hxy] at this; cases this
  | false =>
    right
    cases hyx : y.operator_lt x with
    | true =>
      left
      refine ⟨rfl, rfl, ?_⟩
      cases he : x.operator_eq y with
      | false => rfl
      | true =>
        have := ((StackTraceInfo.operator_eq_iff_not_lt x y).1 he).2
        rw [hyx] at this; cases this
    | false =>
      right
      exact ⟨rfl, rfl, (StackTraceInfo.operator_eq_iff_not_lt x y).2 ⟨hxy, hyx⟩⟩

/-- C11, at three concrete stacks: transitivity chains a hash comparison with a
count comparison. -/
theorem operator_lt_strict_total_witness :
    (StackTraceInfo.mk 1 2 [7, 8]).operator_lt (StackTraceInfo.mk 2 1 [7]) = true ∧
    (StackTraceInfo.mk 2 1 [7]).operator_lt (StackTraceInfo.mk 2 2 [7, 9]) = true ∧
    (StackTraceInfo.mk 1 2 [7, 8]).operator_lt (StackTraceInfo.mk 2 2 [7, 9]) = true :=
  ⟨by decide, by decide,
    operator_lt_strict_total.2.2.1 (StackTraceInfo.mk 1 2 [7, 8]) (StackTraceInfo.mk 2 1 [7])
      (StackTraceInfo.mk 2 2 [7, 9]) (by decide) (by decide)⟩

/-- C12, as stated, fails: a scope entered with the guard already suppressed
ends with the guard enabled, not with its prior value. -/
theorem scope_exit_enables_suppressed_guard :
    ¬ ((ScopedTraceDisabler.scoped id (MemoryTracer.mk true [] false)).m_bTracingEnabled =
      (MemoryTracer.mk true [] false).m_bTracingEnabled) := by
  decide

/-- C12, amended: `ScopedTraceDisabler` clears the guard on entry and sets it
to true on exit, whatever it was before; the guard after the scope equals its
prior value exactly when that value was true. The members that open such a
scope (`Start`, `End`, `RecordDeallocation`) all return with the guard true,
and the scope itself touches neither the active flag nor the registry. -/
theorem scope_clears_then_enables (t : MemoryTracer) (body : MemoryTracer → MemoryTracer)
    (p : Platform) (pPtr : Nat) :
    (ScopedTraceDisabler.enter t).m_bTracingEnabled = false ∧
    (ScopedTraceDisabler.scoped body t).m_bTracingEnabled = true ∧
    ((ScopedTraceDisabler.scoped body t).m_bTracingEnabled = t.m_bTracingEnabled ↔
      t.m_bTracingEnabled = true) ∧
    (ScopedTraceDisabler.scoped id t).m_bTracingActive = t.m_bTracingActive ∧
    (ScopedTraceDisabler.scoped id t).m_mapAllocations = t.m_mapAllocations ∧
    t.Start.m_bTracingEnabled = true ∧
    (MemoryTracer.End p t).2.m_bTracingEnabled = true ∧
    (t.RecordDeallocation pPtr).m_bTracingEnabled = true := by
  refine ⟨rfl, rfl, ?_, rfl, rfl, ?_, ?_, rfl⟩
  · simp only [ScopedTraceDisabler.scoped, ScopedTraceDisabler.leave]
    exact ⟨fun h => h.symm, fun h => h.symm⟩
  · cases h : t.m_bTracingActive <;>
      simp [MemoryTracer.Start, MemoryTracer.IsTracingActive, ScopedTraceDisabler.enter,
        ScopedTraceDisabler.leave, h]
  · cases h : t.m_bTracingActive <;>
      simp [MemoryTracer.End, MemoryTracer.IsTracingActive, ScopedTraceDisabler.enter,
        ScopedTraceDisabler.leave, h]

/-- C15, as stated, fails: `Start()` on an active session holding a record does
not clear the registry. -/
theorem start_on_active_keeps_records :
    ¬ ((MemoryTracer.ctor.Start.RecordAllocation 16 100 [7, 8]).Start.m_mapAllocations = []) := by
  decide

/-- C15, amended: after `Start()` tracing is active from every prior state; from
an inactive prior state all previous records have been cleared, so that the
registry then tracks exactly the calls made after `Start()`; from an active
prior state the registry is left as it was. -/
theorem start_clears_only_when_inactive (t : MemoryTracer) :
    t.Start.m_bTracingActive = true ∧
    (t.m_bTracingActive = false → t.Start.m_mapAllocations = []) ∧
    (t.m_bTracingActive = false → ∀ calls a info,
      (a, info) ∈ (t.Start.run calls).m_mapAllocations ↔ outstanding calls a = some info) ∧
    (t.m_bTracingActive = true → t.Start.m_mapAllocations = t.m_mapAllocations) := by
  refine ⟨?_, ?_, ?_, ?_⟩
  · cases h : t.m_bTracingActive <;>
      simp [MemoryTracer.Start, MemoryTracer.IsTracingActive, ScopedTraceDisabler.enter,
        ScopedTraceDisabler.leave, h]
  · intro h
    simp [MemoryTracer.Start, MemoryTracer.IsTracingActive, ScopedTraceDisabler.enter,
      ScopedTraceDisabler.leave, h]
  · intro h calls a info
    obtain ⟨-, -, hv, hf⟩ := MemoryTracer.run_start_invariant t h calls
    rw [registry_mem_iff_find _ hv, hf]
  · intro h
    simp [MemoryTracer.Start, MemoryTracer.IsTracingActive, ScopedTraceDisabler.enter,
      ScopedTraceDisabler.leave, h]

/-- C15 amended, at two concrete states: an ended session that (against the
invariant) still holds a record, and an active session holding a record. -/
theorem start_clears_only_when_inactive_witness :
    (MemoryTracer.mk false [(16, AllocationInfo.mk 100 StackTraceInfo.ctor)] true).m_bTracingActive
      = false ∧
    (MemoryTracer.mk false [(16, AllocationInfo.mk 100 StackTraceInfo.ctor)]
      true).Start.m_mapAllocations = [] ∧
    (MemoryTracer.ctor.Start.RecordAllocation 16 100 [7, 8]).m_bTracingActive = true ∧
    (MemoryTracer.ctor.Start.RecordAllocation 16 100 [7, 8]).Start.m_mapAllocations =
      (MemoryTracer.ctor.Start.RecordAllocation 16 100 [7, 8]).m_mapAllocations :=
  ⟨rfl,
    (start_clears_only_when_inactive
      (MemoryTracer.mk false [(16, AllocationInfo.mk 100 StackTraceInfo.ctor)] true)).2.1 rfl,
    by decide,
    (start_clears_only_when_inactive
      (MemoryTracer.ctor.Start.RecordAllocation 16 100 [7, 8])).2.2.2 (by decide)⟩

namespace MemoryTracer

/-- The report of `End()` on an active session is the report on its registry. -/
theorem End_report_of_active (p : Platform) (t : MemoryTracer)
    (h : t.m_bTracingActive = true) :
    (End p t).1 = GenerateLeakReport p t.m_mapAllocations := by
  simp [End, IsTracingActive, ScopedTraceDisabler.enter, ScopedTraceDisabler.leave, h]

theorem steps_append (p : Platform) (t : MemoryTracer) (l : List SessionOp) (o : SessionOp) :
    t.steps p (l ++ [o]) = (t.steps p l).step p o := by
  simp [steps, List.foldl_append]

/-- The invariant of the sequential session state machine, kept by every member
call: the registry is a valid map, and it is empty whenever the session is
inactive. -/
theorem step_invariant (p : Platform) (t : MemoryTracer) (o : SessionOp)
    (hv : StdMap.Valid ptrLess t.m_mapAllocations)
    (hi : t.m_bTracingActive = false → t.m_mapAllocations = []) :
    StdMap.Valid ptrLess (t.step p o).m_mapAllocations ∧
    ((t.step p o).m_bTracingActive = false → (t.step p o).m_mapAllocations = []) := by
  cases o with
  | opStart =>
    cases h : t.m_bTracingActive <;>
      simp [step, Start, IsTracingActive, ScopedTraceDisabler.enter,
        ScopedTraceDisabler.leave, h, StdMap.Valid]
    exact hv
  | opEnd =>
    cases h : t.m_bTracingActive <;>
      simp [step, End, IsTracingActive, ScopedTraceDisabler.enter,
        ScopedTraceDisabler.leave, h, StdMap.Valid]
    exact ⟨hv, hi h⟩
  | opRecord c =>
    cases c with
    | alloc a s cs =>
      cases h : t.m_bTracingActive
      · simp [step, call, RecordAllocation, IsTracingActive, h]
        exact ⟨hv, hi h⟩
      · cases hg : t.m_bTracingEnabled
        · simp [step, call, RecordAllocation, IsTracingActive, h, hg]
          exact hv
        · simp only [step, call, RecordAllocation, IsTracingActive, h, hg,
            ScopedTraceDisabler.enter, ScopedTraceDisabler.leave, Bool.not_true, Bool.or_self,
            Bool.false_eq_true, if_false]
          exact ⟨StdMap.valid_update ptrLess_strictWeak _ _ _ _ hv, by simp⟩
    | free a =>
      simp only [step, call, RecordDeallocation, ScopedTraceDisabler.enter,
        ScopedTraceDisabler.leave]
      refine ⟨StdMap.valid_erase _ _ hv, ?_⟩
      intro h
      rw [hi h]
      rfl

theorem steps_invariant (p : Platform) (ops : List SessionOp) :
    StdMap.Valid ptrLess (MemoryTracer.ctor.steps p ops).m_mapAllocations ∧
    ((MemoryTracer.ctor.steps p ops).m_bTracingActive = false →
      (MemoryTracer.ctor.steps p ops).m_mapAllocations = []) := by
  induction ops using List.reverseRecOn with
  | nil => simp [steps, ctor, StdMap.Valid]
  | append_singleton l o ih =>
    rw [steps_append]
    exact step_invariant p _ o ih.1 ih.2

end MemoryTracer

/-- C20: in every state reachable from the initial state by `Start`, `End`,
`RecordAllocation` and `RecordDeallocation` calls, an inactive session has an
empty registry; so after an `End()` nothing is left in the registry, and the
registry of a later session, hence its report, holds exactly the records
left outstanding by the calls of that later session. -/
theorem inactive_registry_is_empty (p : Platform) (ops : List SessionOp) :
    ((MemoryTracer.ctor.steps p ops).m_bTracingActive = false →
      (MemoryTracer.ctor.steps p ops).m_mapAllocations = []) ∧
    (MemoryTracer.End p (MemoryTracer.ctor.steps p ops)).2.m_mapAllocations = [] ∧
    (MemoryTracer.End p (MemoryTracer.ctor.steps p ops)).2.m_bTracingActive = false ∧
    (∀ calls : List Call,
      (MemoryTracer.End p
          ((MemoryTracer.End p (MemoryTracer.ctor.steps p ops)).2.Start.run calls)).1 =
        MemoryTracer.GenerateLeakReport p
          ((MemoryTracer.End p (MemoryTracer.ctor.steps p ops)).2.Start.run
            calls).m_mapAllocations ∧
      ∀ a info,
        (a, info) ∈ ((MemoryTracer.End p (MemoryTracer.ctor.steps p ops)).2.Start.run
            calls).m_mapAllocations ↔
          outstanding calls a = some info) := by
  obtain ⟨-, hi⟩ := MemoryTracer.steps_invariant p ops
  generalize MemoryTracer.ctor.steps p ops = s at hi
  have hmap : (MemoryTracer.End p s).2.m_mapAllocations = [] := by
    cases h : s.m_bTracingActive
    · simp [MemoryTracer.End, MemoryTracer.IsTracingActive, ScopedTraceDisabler.enter,
        ScopedTraceDisabler.leave, h, hi h]
    · simp [MemoryTracer.End, MemoryTracer.IsTracingActive, ScopedTraceDisabler.enter,
        ScopedTraceDisabler.leave, h]
  have hact : (MemoryTracer.End p s).2.m_bTracingActive = false := by
    cases h : s.m_bTracingActive <;>
      simp [MemoryTracer.End, MemoryTracer.IsTracingActive, ScopedTraceDisabler.enter,
        ScopedTraceDisabler.leave, h]
  refine ⟨hi, hmap, hact, ?_⟩
  intro calls
  obtain ⟨h1, -, hv, hf⟩ := MemoryTracer.run_start_invariant _ hact calls
  constructor
  · exact MemoryTracer.End_report_of_active p _ h1
  · intro a info
    rw [registry_mem_iff_find _ hv, hf]

/-- C20, at a concrete history: a session with one allocation, ended, followed
by a free while inactive. -/
theorem inactive_registry_is_empty_witness :
    (MemoryTracer.ctor.steps refPlatform
      [SessionOp.opStart, SessionOp.opRecord (Call.alloc 16 100 [7, 8]), SessionOp.opEnd,
        SessionOp.opRecord (Call.free 16)]).m_bTracingActive = false ∧
    (MemoryTracer.ctor.steps refPlatform
      [SessionOp.opStart, SessionOp.opRecord (Call.alloc 16 100 [7, 8]), SessionOp.opEnd,
        SessionOp.opRecord (Call.free 16)]).m_mapAllocations = [] :=
  ⟨by decide,
    (inactive_registry_is_empty refPlatform
      [SessionOp.opStart, SessionOp.opRecord (Call.alloc 16 100 [7, 8]), SessionOp.opEnd,
        SessionOp.opRecord (Call.free 16)]).1 (by decide)⟩

namespace StdMap

section
variable {K V : Type} {lt : K → K → Bool}

/-- The number of entries after `operator[]`: one more when the key is new. -/
theorem length_update (dflt : V) (f : V → V) (m : List (K × V)) (k : K) :
    (update lt dflt f m k).length =
      if (find lt m k).isSome then m.length else m.length + 1 := by
  induction m with
  | nil => simp [update, find]
  | cons q rest ih =>
    obtain ⟨k1, v⟩ := q
    rw [update_cons, find_cons]
    by_cases h1 : lt k k1 = true
    · simp [h1]
    · rw [if_neg h1, if_neg h1]
      by_cases h3 : lt k1 k = true
      · rw [if_pos h3, if_pos h3, List.length_cons, ih]
        split <;> simp
      · rw [if_neg h3, if_neg h3]
        simp

/-- A measure summed over the entries, after `operator[]` and update: the
updated value replaces the old one, or is added when the key is new. -/
theorem sum_update (φ : V → Nat) (dflt : V) (f : V → V) (m : List (K × V)) (k : K) :
    ((update lt dflt f m k).map (fun e => φ e.2)).sum +
        ((find lt m k).map φ).getD 0 =
      (m.map (fun e => φ e.2)).sum + φ (f ((find lt m k).getD dflt)) := by
  induction m with
  | nil => simp [update, find]
  | cons q rest ih =>
    obtain ⟨k1, v⟩ := q
    rw [update_cons, find_cons]
    by_cases h1 : lt k k1 = true
    · simp [h1]
      omega
    · rw [if_neg h1, if_neg h1]
      by_cases h3 : lt k1 k = true
      · rw [if_pos h3, if_pos h3]
        simp only [List.map_cons, List.sum_cons]
        omega
      · rw [if_neg h3, if_neg h3]
        simp
        omega

/-- A found value is one of the summands of a measure summed over the entries. -/
theorem find_le_sum (φ : V → Nat) (m : List (K × V)) (k : K) (v : V)
    (hf : find lt m k = some v) : φ v ≤ (m.map (fun e => φ e.2)).sum := by
  obtain ⟨k1, hk1, -⟩ := mem_of_find m k v hf
  exact List.single_le_sum (fun _ _ => Nat.zero_le _) _
    (List.mem_map.2 ⟨(k1, v), hk1, rfl⟩)

end

end StdMap

theorem distinctStacks_append (l : List (Nat × AllocationInfo)) (r : Nat × AllocationInfo) :
    distinctStacks (l ++ [r]) =
      if (distinctStacks l).any (fun x => x.operator_eq r.2.m_stStackTrace) = true
      then distinctStacks l
      else distinctStacks l ++ [r.2.m_stStackTrace] := by
  simp [distinctStacks, List.foldl_append]

theorem operator_eq_trans (x y z : StackTraceInfo) (h1 : x.operator_eq y = true)
    (h2 : y.operator_eq z = true) : x.operator_eq z = true := by
  rw [← operator_lt_equiv] at h1 h2 ⊢
  exact operator_lt_strictWeak.equiv_trans h1 h2

/-- A stack equals one of the distinct stacks exactly when it equals the stack
of some record. -/
theorem any_distinctStacks_iff (l : List (Nat × AllocationInfo)) (y : StackTraceInfo) :
    (distinctStacks l).any (fun x => x.operator_eq y) = true ↔
      ∃ r ∈ l, r.2.m_stStackTrace.operator_eq y = true := by
  induction l using List.reverseRecOn with
  | nil => simp [distinctStacks]
  | append_singleton l r ih =>
    rw [distinctStacks_append]
    by_cases h : (distinctStacks l).any (fun x => x.operator_eq r.2.m_stStackTrace) = true
    · rw [if_pos h, ih]
      constructor
      · rintro ⟨q, hq, he⟩
        exact ⟨q, List.mem_append_left _ hq, he⟩
      · rintro ⟨q, hq, he⟩
        rcases List.mem_append.1 hq with hq | hq
        · exact ⟨q, hq, he⟩
        · simp only [List.mem_singleton] at hq
          subst hq
          obtain ⟨x, hx, hxe⟩ := List.any_eq_true.1 h
          have hxy : x.operator_eq y = true := operator_eq_trans _ _ _ hxe he
          exact ih.1 (List.any_eq_true.2 ⟨x, hx, hxy⟩)
    · rw [if_neg h, List.any_append, Bool.or_eq_true, ih]
      constructor
      · rintro (⟨q, hq, he⟩ | he)
        · exact ⟨q, List.mem_append_left _ hq, he⟩
        · exact ⟨r, List.mem_append_right _ (List.mem_singleton_self _), by simpa using he⟩
      · rintro ⟨q, hq, he⟩
        rcases List.mem_append.1 hq with hq | hq
        · exact Or.inl ⟨q, hq, he⟩
        · simp only [List.mem_singleton] at hq
          subst hq
          right
          simpa using he

namespace MemoryTracer

/-- Lookup in the leak-group map succeeds exactly for the stacks of records. -/
theorem find_buildLeakGroups_isSome (l : List (Nat × AllocationInfo)) (x : StackTraceInfo) :
    (StdMap.find StackTraceInfo.operator_lt (buildLeakGroups l) x).isSome = true ↔
      ∃ r ∈ l, r.2.m_stStackTrace.operator_eq x = true := by
  have h1 := (find_buildLeakGroups l x).1
  have hrec : recordsWithStack l x ≠ [] ↔ ∃ r ∈ l, r.2.m_stStackTrace.operator_eq x = true := by
    unfold recordsWithStack
    constructor
    · intro hne
      obtain ⟨r, hr⟩ := List.exists_mem_of_ne_nil _ hne
      exact ⟨r, (List.mem_filter.1 hr).1, (List.mem_filter.1 hr).2⟩
    · rintro ⟨r, hr, he⟩
      exact List.ne_nil_of_mem (List.mem_filter.2 ⟨hr, he⟩)
  rw [← hrec]
  by_cases hr : recordsWithStack l x = []
  · rw [if_pos hr] at h1
    cases hf : StdMap.find StackTraceInfo.operator_lt (buildLeakGroups l) x with
    | none => simp [hr]
    | some v => rw [hf] at h1; simp at h1
  · rw [if_neg hr] at h1
    cases hf : StdMap.find StackTraceInfo.operator_lt (buildLeakGroups l) x with
    | none => rw [hf] at h1; simp at h1
    | some v => simp [hr]

/-- The number of leak groups is the number of distinct stacks. -/
theorem length_buildLeakGroups (l : List (Nat × AllocationInfo)) :
    (buildLeakGroups l).length = (distinctStacks l).length := by
  induction l using List.reverseRecOn with
  | nil => simp [buildLeakGroups, distinctStacks]
  | append_singleton l r ih =>
    rw [buildLeakGroups_append, distinctStacks_append]
    unfold addRecord
    rw [StdMap.length_update]
    by_cases h : (distinctStacks l).any (fun x => x.operator_eq r.2.m_stStackTrace) = true
    · rw [if_pos h, if_pos ((find_buildLeakGroups_isSome l _).2
        ((any_distinctStacks_iff l _).1 h)), ih]
    · have h2 : ¬ (StdMap.find StackTraceInfo.operator_lt (buildLeakGroups l)
          r.2.m_stStackTrace).isSome = true := by
        intro hs
        exact h ((any_distinctStacks_iff l _).2 ((find_buildLeakGroups_isSome l _).1 hs))
      rw [if_neg h, if_neg h2, ih]
      simp

/-- The counts of the leak groups add up to the number of records. -/
theorem sumCounts_buildLeakGroups (l : List (Nat × AllocationInfo))
    (hsz : l.length < 2 ^ 64) : sumCounts (buildLeakGroups l) = l.length := by
  induction l using List.reverseRecOn with
  | nil => simp [buildLeakGroups, sumCounts]
  | append_singleton l r ih =>
    have hlen : l.length + 1 < 2 ^ 64 := by simpa using hsz
    have ih2 := ih (by omega)
    rw [buildLeakGroups_append, List.length_append, List.length_singleton]
    have hsum : sumCounts (addRecord (buildLeakGroups l) r.2) +
          ((StdMap.find StackTraceInfo.operator_lt (buildLeakGroups l)
              r.2.m_stStackTrace).map (fun g : LeakGroup => g.m_uCount)).getD 0 =
        sumCounts (buildLeakGroups l) +
          (((StdMap.find StackTraceInfo.operator_lt (buildLeakGroups l)
              r.2.m_stStackTrace).getD LeakGroup.ctor).m_uCount + 1) % 2 ^ 64 :=
      @StdMap.sum_update StackTraceInfo LeakGroup StackTraceInfo.operator_lt
        (fun g : LeakGroup => g.m_uCount) LeakGroup.ctor
        (fun oGroup =>
          { m_uCount := (oGroup.m_uCount + 1) % 2 ^ 64,
            m_uTotalSize := (oGroup.m_uTotalSize + r.2.m_uSize) % 2 ^ 64,
            m_stStackTrace := r.2.m_stStackTrace })
        (buildLeakGroups l) r.2.m_stStackTrace
    cases hf : StdMap.find StackTraceInfo.operator_lt (buildLeakGroups l) r.2.m_stStackTrace with
    | none =>
      rw [hf] at hsum
      simp only [Option.getD_none, Option.map_none', LeakGroup.ctor] at hsum
      omega
    | some v =>
      rw [hf] at hsum
      simp only [Option.getD_some, Option.map_some'] at hsum
      have hle : v.m_uCount ≤ sumCounts (buildLeakGroups l) :=
        StdMap.find_le_sum (fun g : LeakGroup => g.m_uCount) _ _ _ hf
      omega

/-- The total sizes of the leak groups add up to the sizes of the records,
modulo `2^64`. -/
theorem sumTotalSizes_buildLeakGroups (l : List (Nat × AllocationInfo)) :
    sumTotalSizes (buildLeakGroups l) % 2 ^ 64 = sumSizes l % 2 ^ 64 := by
  induction l using List.reverseRecOn with
  | nil => simp [buildLeakGroups, sumTotalSizes, sumSizes]
  | append_singleton l r ih =>
    rw [buildLeakGroups_append, sumSizes_append]
    have hsum : sumTotalSizes (addRecord (buildLeakGroups l) r.2) +
          ((StdMap.find StackTraceInfo.operator_lt (buildLeakGroups l)
              r.2.m_stStackTrace).map (fun g : LeakGroup => g.m_uTotalSize)).getD 0 =
        sumTotalSizes (buildLeakGroups l) +
          (((StdMap.find StackTraceInfo.operator_lt (buildLeakGroups l)
              r.2.m_stStackTrace).getD LeakGroup.ctor).m_uTotalSize + r.2.m_uSize) % 2 ^ 64 :=
      @StdMap.sum_update StackTraceInfo LeakGroup StackTraceInfo.operator_lt
        (fun g : LeakGroup => g.m_uTotalSize) LeakGroup.ctor
        (fun oGroup =>
          { m_uCount := (oGroup.m_uCount + 1) % 2 ^ 64,
            m_uTotalSize := (oGroup.m_uTotalSize + r.2.m_uSize) % 2 ^ 64,
            m_stStackTrace := r.2.m_stStackTrace })
        (buildLeakGroups l) r.2.m_stStackTrace
    cases hf : StdMap.find StackTraceInfo.operator_lt (buildLeakGroups l) r.2.m_stStackTrace with
    | none =>
      rw [hf] at hsum
      simp only [Option.getD_none, Option.map_none', LeakGroup.ctor] at hsum
      omega
    | some v =>
      rw [hf] at hsum
      simp only [Option.getD_some, Option.map_some'] at hsum
      omega

/-- The running total of the rendering loop: it does not depend on the text or
on the group index, and is the sum of the total sizes modulo `2^64`. -/
theorem renderGroups_total (p : Platform) (gs : List GroupEntry) (i : Nat) (ss : String)
    (tot : Nat) (htot : tot < 2 ^ 64) :
    (renderGroups p gs i ss tot).2 = (tot + sumTotalSizes gs) % 2 ^ 64 := by
  induction gs generalizing i ss tot with
  | nil =>
    simp only [renderGroups, sumTotalSizes, List.map_nil, List.sum_nil, Nat.add_zero]
    exact (Nat.mod_eq_of_lt htot).symm
  | cons g rest ih =>
    rw [renderGroups, ih _ _ _ (Nat.mod_lt _ (by decide))]
    simp only [sumTotalSizes, List.map_cons, List.sum_cons]
    omega

end MemoryTracer

/-- C13: the summary of the report is conserved against the snapshot: the
total-groups figure is the number of distinct stacks, the total-allocations
figure is the number of records and the sum of the counts of the groups, and
the total-leaked-bytes figure is the sum of the total sizes of the groups and
the sum of the sizes of all records, modulo `2^64`; the report ends with these
three figures. -/
theorem summary_conserved (p : Platform) (hs : IsStdSort p.sort MemoryTracer.sortComp)
    (snapshot : List (Nat × AllocationInfo)) (hne : snapshot ≠ [])
    (hsz : snapshot.length < 2 ^ 64) :
    (MemoryTracer.summary p snapshot).1 = (distinctStacks snapshot).length ∧
    (MemoryTracer.summary p snapshot).2.1 = snapshot.length ∧
    (MemoryTracer.summary p snapshot).2.1 = sumCounts (MemoryTracer.sortedGroups p snapshot) ∧
    (MemoryTracer.summary p snapshot).2.2 =
      sumTotalSizes (MemoryTracer.sortedGroups p snapshot) % 2 ^ 64 ∧
    (MemoryTracer.summary p snapshot).2.2 = sumSizes snapshot % 2 ^ 64 ∧
    (∃ body : String, MemoryTracer.GenerateLeakReport p snapshot =
      body ++ "SUMMARY:\n" ++
        "  Total leak groups: " ++ toString (MemoryTracer.summary p snapshot).1 ++ "\n" ++
        "  Total allocations: " ++ toString (MemoryTracer.summary p snapshot).2.1 ++ "\n" ++
        "  Total leaked memory: " ++ toString (MemoryTracer.summary p snapshot).2.2 ++
        " bytes\n" ++ MemoryTracer.rule (Char.ofNat 61) ++ "\n") := by
  have hperm : (MemoryTracer.sortedGroups p snapshot).Perm
      (MemoryTracer.buildLeakGroups snapshot) := (hs _).1
  have hcounts : sumCounts (MemoryTracer.sortedGroups p snapshot) = snapshot.length := by
    rw [← MemoryTracer.sumCounts_buildLeakGroups snapshot hsz]
    exact (hperm.map _).sum_eq
  have htotals : sumTotalSizes (MemoryTracer.sortedGroups p snapshot) =
      sumTotalSizes (MemoryTracer.buildLeakGroups snapshot) := (hperm.map _).sum_eq
  have hbytes : ∀ ss : String,
      (MemoryTracer.renderGroups p (MemoryTracer.sortedGroups p snapshot) 0 ss 0).2 =
        sumTotalSizes (MemoryTracer.sortedGroups p snapshot) % 2 ^ 64 := by
    intro ss
    rw [MemoryTracer.renderGroups_total p _ 0 ss 0 (by decide), Nat.zero_add]
  refine ⟨?_, rfl, ?_, ?_, ?_, ?_⟩
  · show (MemoryTracer.sortedGroups p snapshot).length = _
    rw [hperm.length_eq, MemoryTracer.length_buildLeakGroups]
  · show snapshot.length = _
    rw [hcounts]
  · exact hbytes ""
  · show (MemoryTracer.renderGroups p (MemoryTracer.sortedGroups p snapshot) 0 "" 0).2 = _
    rw [hbytes "", htotals, MemoryTracer.sumTotalSizes_buildLeakGroups]
  · have hemp : snapshot.isEmpty = false := by
      cases snapshot with
      | nil => exact absurd rfl hne
      | cons r rest => rfl
    refine ⟨(MemoryTracer.renderGroups p (MemoryTracer.sortedGroups p snapshot) 0
      ("" ++ MemoryTracer.rule (Char.ofNat 61) ++ "\n" ++
        "                    MEMORY LEAK REPORT (GROUPED BY STACK TRACE)\n" ++
        MemoryTracer.rule (Char.ofNat 61) ++ "\n\n") 0).1, ?_⟩
    simp only [MemoryTracer.GenerateLeakReport, hemp, Bool.false_eq_true, if_false,
      MemoryTracer.summary, hbytes]

/-- C13, at a concrete snapshot: three records from two stacks, 157 bytes. -/
theorem summary_conserved_witness :
    IsStdSort refPlatform.sort MemoryTracer.sortComp ∧
    ([(16, AllocationInfo.mk 100 (StackTraceCapturer.Capture [7, 8])),
      (32, AllocationInfo.mk 7 (StackTraceCapturer.Capture [7, 9])),
      (48, AllocationInfo.mk 50 (StackTraceCapturer.Capture [7, 8]))] :
        List (Nat × AllocationInfo)) ≠ [] ∧
    ([(16, AllocationInfo.mk 100 (StackTraceCapturer.Capture [7, 8])),
      (32, AllocationInfo.mk 7 (StackTraceCapturer.Capture [7, 9])),
      (48, AllocationInfo.mk 50 (StackTraceCapturer.Capture [7, 8]))] :
        List (Nat × AllocationInfo)).length < 2 ^ 64 ∧
    (MemoryTracer.summary refPlatform
      [(16, AllocationInfo.mk 100 (StackTraceCapturer.Capture [7, 8])),
       (32, AllocationInfo.mk 7 (StackTraceCapturer.Capture [7, 9])),
       (48, AllocationInfo.mk 50 (StackTraceCapturer.Capture [7, 8]))]).2.2 =
      sumSizes
        [(16, AllocationInfo.mk 100 (StackTraceCapturer.Capture [7, 8])),
         (32, AllocationInfo.mk 7 (StackTraceCapturer.Capture [7, 9])),
         (48, AllocationInfo.mk 50 (StackTraceCapturer.Capture [7, 8]))] % 2 ^ 64 ∧
    MemoryTracer.summary refPlatform
      [(16, AllocationInfo.mk 100 (StackTraceCapturer.Capture [7, 8])),
       (32, AllocationInfo.mk 7 (StackTraceCapturer.Capture [7, 9])),
       (48, AllocationInfo.mk 50 (StackTraceCapturer.Capture [7, 8]))] = (2, 3, 157) :=
  ⟨insertionSort_isStdSort, by simp, by simp,
    (summary_conserved refPlatform insertionSort_isStdSort
      [(16, AllocationInfo.mk 100 (StackTraceCapturer.Capture [7, 8])),
       (32, AllocationInfo.mk 7 (StackTraceCapturer.Capture [7, 9])),
       (48, AllocationInfo.mk 50 (StackTraceCapturer.Capture [7, 8]))]
      (by simp) (by simp)).2.2.2.2.1,
    by decide⟩

namespace GnuSort

end GnuSort

set_option maxRecDepth 100000 in
/-- The heap sort of `std::__partial_sort` on a range of 20 pairs compared by
their first component (descending): the second components, in the order the
GNU C++ library leaves them in. -/
theorem GnuSort.partial_sort_example :
    (GnuSort.partial_sort ((0, 0) : Nat × Nat) (fun a b => decide (a.1 > b.1))
      [(3, 0), (2, 1), (1, 2), (0, 3), (2, 4), (0, 5), (3, 6), (2, 7), (1, 8), (2, 9),
       (0, 10), (3, 11), (2, 12), (1, 13), (2, 14), (1, 15), (0, 16), (1, 17), (2, 18),
       (0, 19)]).map Prod.snd =
      [0, 11, 6, 7, 1, 4, 18, 9, 12, 14, 15, 8, 17, 2, 13, 3, 16, 19, 10, 5] := by
  decide

set_option maxRecDepth 100000 in
/-- The function `std::sort` on the same range of 20 pairs: the second
components, in the order the GNU C++ library leaves them in. -/
theorem GnuSort.sort_example :
    (GnuSort.sort ((0, 0) : Nat × Nat) (fun a b => decide (a.1 > b.1))
      [(3, 0), (2, 1), (1, 2), (0, 3), (2, 4), (0, 5), (3, 6), (2, 7), (1, 8), (2, 9),
       (0, 10), (3, 11), (2, 12), (1, 13), (2, 14), (1, 15), (0, 16), (1, 17), (2, 18),
       (0, 19)]).map Prod.snd =
      [0, 6, 11, 1, 4, 18, 7, 9, 12, 14, 2, 8, 17, 13, 15, 19, 16, 10, 5, 3] := by
  decide

set_option maxRecDepth 100000 in
/-- The groups of the snapshot `fortyLeaks` in the order of the map of groups
(the order of `operator<` on their stacks), each named by its one return
address. -/
theorem fortyLeaks_map_order :
    (MemoryTracer.buildLeakGroups fortyLeaks).map (fun g => g.1.m_aFrames.headD 0) =
      [31, 30, 29, 28, 27, 26, 25, 24, 23, 22, 21, 20, 19, 18, 17, 16, 15, 14, 13, 12,
       11, 10, 9, 8, 7, 6, 5, 4, 3, 2, 1, 40, 39, 38, 37, 36, 35, 34, 33, 32] := by
  decide

/-- C16, as stated, fails: when the recording thread passes the check, `End`
then runs its critical section, and the recording thread inserts afterwards,
the record is inserted into the registry of the inactive session and is not in
the snapshot of `End`. -/
theorem record_inserted_after_end :
    (TwoThreads.exec 16 100 [7, 8] (TwoThreads.init MemoryTracer.ctor.Start)
        [ThreadStep.recorderCheck, ThreadStep.enderSection, ThreadStep.recorderInsert]).map
      (fun s => (s.tracer.m_bTracingActive, s.tracer.m_mapAllocations, s.mapResult,
        s.recorder)) =
      some (false, [(16, AllocationInfo.mk 100 (StackTraceCapturer.Capture [7, 8]))],
        some [], RecorderPc.returned) ∧
    ¬ (∀ sched fin,
      TwoThreads.exec 16 100 [7, 8] (TwoThreads.init MemoryTracer.ctor.Start) sched = some fin →
      fin.recorder = RecorderPc.returned →
      ∀ snapshot, fin.mapResult = some snapshot →
        ((16, AllocationInfo.mk 100 (StackTraceCapturer.Capture [7, 8])) ∈ snapshot ∨
          (16, AllocationInfo.mk 100 (StackTraceCapturer.Capture [7, 8])) ∉
            fin.tracer.m_mapAllocations)) := by
  have hrun : TwoThreads.exec 16 100 [7, 8] (TwoThreads.init MemoryTracer.ctor.Start)
      [ThreadStep.recorderCheck, ThreadStep.enderSection, ThreadStep.recorderInsert] =
      some { tracer := MemoryTracer.mk false
               [(16, AllocationInfo.mk 100 (StackTraceCapturer.Capture [7, 8]))] true,
             recorder := RecorderPc.returned, mapResult := some [] } := by
    decide
  refine ⟨by rw [hrun]; rfl, ?_⟩
  intro h
  rcases h _ _ hrun rfl [] rfl with h1 | h1
  · cases h1
  · exact h1 (List.mem_singleton_self _)

/-- C16, amended: the flag transition and the registry swap of `End` are one
critical section, but `RecordAllocation` checks the flag before it takes the
lock. From an active session with the guard enabled, a complete run of one
`RecordAllocation` call and one `End` call is one of three: the insertion runs
before the critical section of `End`, and the record is in the snapshot; the
check runs after it, and nothing is inserted; or the check runs before it and
the insertion after it, and the record is inserted into the registry of the
inactive session and is not in the snapshot. -/
theorem record_allocation_races_end (t : MemoryTracer) (hact : t.m_bTracingActive = true)
    (hg : t.m_bTracingEnabled = true) (pPtr uSize : Nat) (callStack : List Nat) :
    (∀ sched fin, TwoThreads.exec pPtr uSize callStack (TwoThreads.init t) sched = some fin →
      fin.recorder = RecorderPc.returned → fin.mapResult ≠ none →
      fin.tracer.m_bTracingActive = false ∧
      ((sched = [ThreadStep.recorderCheck, ThreadStep.recorderInsert, ThreadStep.enderSection] ∧
          fin.mapResult = some (t.RecordAllocation pPtr uSize callStack).m_mapAllocations ∧
          fin.tracer.m_mapAllocations = []) ∨
        (sched = [ThreadStep.enderSection, ThreadStep.recorderCheck] ∧
          fin.mapResult = some t.m_mapAllocations ∧
          fin.tracer.m_mapAllocations = []) ∨
        (sched = [ThreadStep.recorderCheck, ThreadStep.enderSection, ThreadStep.recorderInsert] ∧
          fin.mapResult = some t.m_mapAllocations ∧
          fin.tracer.m_mapAllocations =
            [(pPtr, AllocationInfo.mk uSize (StackTraceCapturer.Capture callStack))]))) ∧
    (∃ fin, TwoThreads.exec pPtr uSize callStack (TwoThreads.init t)
        [ThreadStep.recorderCheck, ThreadStep.recorderInsert, ThreadStep.enderSection] =
          some fin ∧
      fin.recorder = RecorderPc.returned ∧ fin.mapResult ≠ none) ∧
    (∃ fin, TwoThreads.exec pPtr uSize callStack (TwoThreads.init t)
        [ThreadStep.enderSection, ThreadStep.recorderCheck] = some fin ∧
      fin.recorder = RecorderPc.returned ∧ fin.mapResult ≠ none) ∧
    (∃ fin, TwoThreads.exec pPtr uSize callStack (TwoThreads.init t)
        [ThreadStep.recorderCheck, ThreadStep.enderSection, ThreadStep.recorderInsert] =
          some fin ∧
      fin.recorder = RecorderPc.returned ∧ fin.mapResult ≠ none) ∧
    ((TwoThreads.exec pPtr uSize callStack (TwoThreads.init t)
        [ThreadStep.recorderCheck, ThreadStep.recorderInsert]).map (fun s => s.tracer) =
      some (t.RecordAllocation pPtr uSize callStack)) := by
  refine ⟨?_, ?_, ?_, ?_, ?_⟩
  · intro sched fin hexec hdone hsnap
    rcases sched with _ | ⟨a, _ | ⟨b, _ | ⟨c, _ | ⟨d, rest⟩⟩⟩⟩
    · simp [TwoThreads.exec, TwoThreads.init] at hexec
      subst hexec
      simp at hdone
    · cases a <;>
        simp [TwoThreads.exec, TwoThreads.step, TwoThreads.init, MemoryTracer.IsTracingActive,
          hact, hg, ScopedTraceDisabler.enter] at hexec <;>
        subst hexec <;> simp at hdone hsnap
    · cases a <;> cases b <;>
        simp [TwoThreads.exec, TwoThreads.step, TwoThreads.init, MemoryTracer.IsTracingActive,
          hact, hg, ScopedTraceDisabler.enter, ScopedTraceDisabler.leave] at hexec <;>
        subst hexec <;> simp at hdone hsnap ⊢
    · cases a <;> cases b <;> cases c <;>
        simp [TwoThreads.exec, TwoThreads.step, TwoThreads.init, MemoryTracer.IsTracingActive,
          hact, hg, ScopedTraceDisabler.enter, ScopedTraceDisabler.leave] at hexec <;>
        subst hexec <;>
        simp [MemoryTracer.RecordAllocation, MemoryTracer.IsTracingActive, hact, hg,
          ScopedTraceDisabler.enter, ScopedTraceDisabler.leave, StdMap.update] at hdone hsnap ⊢
    · cases a <;> cases b <;> cases c <;> cases d <;>
        simp [TwoThreads.exec, TwoThreads.step, TwoThreads.init, MemoryTracer.IsTracingActive,
          hact, hg, ScopedTraceDisabler.enter, ScopedTraceDisabler.leave] at hexec
  · simp [TwoThreads.exec, TwoThreads.step, TwoThreads.init, MemoryTracer.IsTracingActive,
      hact, hg, ScopedTraceDisabler.enter, ScopedTraceDisabler.leave]
  · simp [TwoThreads.exec, TwoThreads.step, TwoThreads.init, MemoryTracer.IsTracingActive,
      hact, hg, ScopedTraceDisabler.enter, ScopedTraceDisabler.leave]
  · simp [TwoThreads.exec, TwoThreads.step, TwoThreads.init, MemoryTracer.IsTracingActive,
      hact, hg, ScopedTraceDisabler.enter, ScopedTraceDisabler.leave]
  · simp [TwoThreads.exec, TwoThreads.step, TwoThreads.init, MemoryTracer.IsTracingActive,
      hact, hg, ScopedTraceDisabler.enter, ScopedTraceDisabler.leave,
      MemoryTracer.RecordAllocation]

/-- C16 amended, at a session just started: the three complete runs of one
`RecordAllocation(16, 100)` call and one `End` call. -/
theorem record_allocation_races_end_witness :
    MemoryTracer.ctor.Start.m_bTracingActive = true ∧
    MemoryTracer.ctor.Start.m_bTracingEnabled = true ∧
    (TwoThreads.exec 16 100 [7, 8] (TwoThreads.init MemoryTracer.ctor.Start)
        [ThreadStep.recorderCheck, ThreadStep.recorderInsert]).map (fun s => s.tracer) =
      some (MemoryTracer.ctor.Start.RecordAllocation 16 100 [7, 8]) ∧
    (TwoThreads.exec 16 100 [7, 8] (TwoThreads.init MemoryTracer.ctor.Start)
        [ThreadStep.recorderCheck, ThreadStep.recorderInsert, ThreadStep.enderSection]).map
      (fun s => (s.tracer.m_mapAllocations, s.mapResult)) =
      some ([], some [(16, AllocationInfo.mk 100 (StackTraceCapturer.Capture [7, 8]))]) ∧
    (TwoThreads.exec 16 100 [7, 8] (TwoThreads.init MemoryTracer.ctor.Start)
        [ThreadStep.enderSection, ThreadStep.recorderCheck]).map
      (fun s => (s.tracer.m_mapAllocations, s.mapResult)) = some ([], some []) :=
  ⟨rfl, rfl,
    (record_allocation_races_end MemoryTracer.ctor.Start rfl rfl 16 100 [7, 8]).2.2.2.2,
    by decide, by decide⟩

theorem firstAddresses_succ (aFrames : List Nat) (n : Nat) :
    firstAddresses aFrames (n + 1) = firstAddresses aFrames n ++ [aFrames.getD n 0] := by
  simp [firstAddresses, List.range_succ]

theorem firstAddresses_eq_iff (f g : List Nat) (n : Nat) :
    firstAddresses f n = firstAddresses g n ↔ ∀ i, i < n → f.getD i 0 = g.getD i 0 := by
  induction n with
  | zero => simp [firstAddresses]
  | succ n ih =>
    rw [firstAddresses_succ, firstAddresses_succ]
    constructor
    · intro h
      have hlen : (firstAddresses f n).length = (firstAddresses g n).length := by
        simp [firstAddresses]
      obtain ⟨h1, h2⟩ := List.append_inj h hlen
      intro i hi
      by_cases hin : i < n
      · exact (ih.1 h1) i hin
      · have : i = n := by omega
        subst this
        simpa using h2
    · intro h
      rw [ih.2 (fun i hi => h i (by omega)), h n (by omega)]

theorem firstAddresses_eq_take (aFrames : List Nat) (n : Nat) (h : n ≤ aFrames.length) :
    firstAddresses aFrames n = aFrames.take n := by
  induction n with
  | zero => simp [firstAddresses]
  | succ n ih =>
    rw [firstAddresses_succ, ih (by omega), List.take_succ]
    congr 1
    have hn : n < aFrames.length := by omega
    simp [List.getD, List.getElem?_eq_getElem hn]

namespace StackTraceCapturer

/-- The loop of `CalculateHash` is a left fold of the mixing step over the
addresses it visits. -/
theorem hashLoop_eq_foldl (aFrames : List Nat) (n i uHash : Nat) :
    hashLoop aFrames n i uHash =
      ((List.range n).map (fun k => aFrames.getD (i + k) 0)).foldl
        (fun h a =>
          ((((h ^^^ ((a >>> 32) &&& 0xFFFFFFFF)) * 1099511628211) % 2 ^ 64 ^^^
            (a &&& 0xFFFFFFFF)) * 1099511628211) % 2 ^ 64)
        uHash := by
  induction n generalizing i uHash with
  | zero => simp [hashLoop]
  | succ n ih =>
    rw [hashLoop, ih, List.range_succ_eq_map]
    simp only [List.map_cons, List.map_map, List.foldl_cons, Nat.add_zero]
    congr 2
    funext k
    simp only [Function.comp, Nat.succ_eq_add_one]
    congr 1
    omega

theorem CalculateHash_eq_reference (aFrames : List Nat) (uCount : Nat) :
    CalculateHash aFrames uCount = hashReference (firstAddresses aFrames uCount) := by
  unfold CalculateHash hashReference firstAddresses
  rw [hashLoop_eq_foldl]
  simp

/-- The hash depends only on the addresses below the count. -/
theorem CalculateHash_congr (f g : List Nat) (n : Nat)
    (h : ∀ i, i < n → f.getD i 0 = g.getD i 0) : CalculateHash f n = CalculateHash g n := by
  rw [CalculateHash_eq_reference, CalculateHash_eq_reference,
    (firstAddresses_eq_iff f g n).2 h]

end StackTraceCapturer

/-- C17: `CalculateHash(frames, n)` equals the reference hash of the first `n`
addresses, computed modulo `2^64` from 14695981039346656037 by mixing the high
and then the low half of each address; for `n = 0` it is 14695981039346656037;
it depends only on the first `n` addresses; and it is order-sensitive: two
sequences that are permutations of each other have different hashes. -/
theorem calculate_hash_is_reference :
    (∀ aFrames uCount, StackTraceCapturer.CalculateHash aFrames uCount =
      hashReference (firstAddresses aFrames uCount)) ∧
    (∀ aFrames uCount, uCount ≤ aFrames.length →
      StackTraceCapturer.CalculateHash aFrames uCount = hashReference (aFrames.take uCount)) ∧
    (∀ aFrames, StackTraceCapturer.CalculateHash aFrames 0 = 14695981039346656037) ∧
    (∀ f g uCount, (∀ i, i < uCount → f.getD i 0 = g.getD i 0) →
      StackTraceCapturer.CalculateHash f uCount = StackTraceCapturer.CalculateHash g uCount) ∧
    (List.Perm [1, 2] [2, 1] ∧
      StackTraceCapturer.CalculateHash [1, 2] 2 ≠ StackTraceCapturer.CalculateHash [2, 1] 2) := by
  refine ⟨StackTraceCapturer.CalculateHash_eq_reference, ?_, ?_,
    StackTraceCapturer.CalculateHash_congr, ?_, ?_⟩
  · intro aFrames uCount h
    rw [StackTraceCapturer.CalculateHash_eq_reference, firstAddresses_eq_take _ _ h]
  · intro aFrames
    rfl
  · exact List.Perm.swap 2 1 []
  · decide

/-- C17, at a concrete frame array: the hash of the first two of three slots. -/
theorem calculate_hash_is_reference_witness :
    2 ≤ [4294967297, 5, 9].length ∧
    StackTraceCapturer.CalculateHash [4294967297, 5, 9] 2 = hashReference [4294967297, 5] :=
  ⟨by decide, calculate_hash_is_reference.2.1 [4294967297, 5, 9] 2 (by decide)⟩

namespace StackTraceInfo

/-- The member `operator==` in terms of the fields it compares. -/
theorem operator_eq_true_iff (x y : StackTraceInfo) :
    x.operator_eq y = true ↔
      (x.m_uHash = y.m_uHash ∧ x.m_uCount = y.m_uCount ∧
        ∀ i, i < x.m_uCount → x.frame i = y.frame i) := by
  unfold operator_eq
  by_cases a : x.m_uHash = y.m_uHash
  · by_cases b : x.m_uCount = y.m_uCount
    · simp only [a, b, bne_self_eq_false, Bool.false_eq_true, if_false, true_and]
      rw [eqLoop_iff]
      simp
    · simp [a, b]
  · simp [a]

end StackTraceInfo

/-- The stack built by `Capture` depends only on what the unwinder stores: the
first `MAX_STACK_DEPTH` return addresses. -/
theorem Capture_congr (cs1 cs2 : List Nat)
    (h : cs1.take MAX_STACK_DEPTH = cs2.take MAX_STACK_DEPTH) :
    StackTraceCapturer.Capture cs1 = StackTraceCapturer.Capture cs2 := by
  have hlen : min cs1.length MAX_STACK_DEPTH = min cs2.length MAX_STACK_DEPTH := by
    have := congrArg List.length h
    simp only [List.length_take] at this
    omega
  simp only [StackTraceCapturer.Capture, h, hlen]

/-- C18: two stacks built the way `Capture` builds them (the hash computed by
`CalculateHash` from the frames and the count) with the same count and the same
addresses below the count compare equal under `operator==`, and neither is
`operator<` the other; for such stacks `operator==` is equivalent to equal count
and equal addresses below the count. Stacks captured from the same unwinder
output are of that kind. -/
theorem captured_stacks_compare_equal :
    (∀ cs, (StackTraceCapturer.Capture cs).m_uHash =
      StackTraceCapturer.CalculateHash (StackTraceCapturer.Capture cs).m_aFrames
        (StackTraceCapturer.Capture cs).m_uCount) ∧
    (∀ cs1 cs2, cs1.take MAX_STACK_DEPTH = cs2.take MAX_STACK_DEPTH →
      (StackTraceCapturer.Capture cs1).operator_eq (StackTraceCapturer.Capture cs2) = true ∧
      (StackTraceCapturer.Capture cs1).operator_lt (StackTraceCapturer.Capture cs2) = false ∧
      (StackTraceCapturer.Capture cs2).operator_lt (StackTraceCapturer.Capture cs1) = false) ∧
    (∀ x y : StackTraceInfo,
      x.m_uHash = StackTraceCapturer.CalculateHash x.m_aFrames x.m_uCount →
      y.m_uHash = StackTraceCapturer.CalculateHash y.m_aFrames y.m_uCount →
      x.m_uCount = y.m_uCount → (∀ i, i < x.m_uCount → x.frame i = y.frame i) →
      x.operator_eq y = true ∧ x.operator_lt y = false ∧ y.operator_lt x = false) ∧
    (∀ x y : StackTraceInfo,
      x.m_uHash = StackTraceCapturer.CalculateHash x.m_aFrames x.m_uCount →
      y.m_uHash = StackTraceCapturer.CalculateHash y.m_aFrames y.m_uCount →
      (x.operator_eq y = true ↔
        (x.m_uCount = y.m_uCount ∧ ∀ i, i < x.m_uCount → x.frame i = y.frame i))) := by
  have hgen : ∀ x y : StackTraceInfo,
      x.m_uHash = StackTraceCapturer.CalculateHash x.m_aFrames x.m_uCount →
      y.m_uHash = StackTraceCapturer.CalculateHash y.m_aFrames y.m_uCount →
      x.m_uCount = y.m_uCount → (∀ i, i < x.m_uCount → x.frame i = y.frame i) →
      x.operator_eq y = true := by
    intro x y hx hy hc hf
    rw [StackTraceInfo.operator_eq_true_iff]
    refine ⟨?_, hc, hf⟩
    rw [hx, hy, ← hc]
    exact StackTraceCapturer.CalculateHash_congr _ _ _ hf
  refine ⟨fun cs => rfl, ?_, ?_, ?_⟩
  · intro cs1 cs2 h
    rw [Capture_congr cs1 cs2 h]
    exact ⟨operator_eq_refl _, StackTraceInfo.operator_lt_irrefl _,
      StackTraceInfo.operator_lt_irrefl _⟩
  · intro x y hx hy hc hf
    have he := hgen x y hx hy hc hf
    exact ⟨he, ((StackTraceInfo.operator_eq_iff_not_lt x y).1 he).1,
      ((StackTraceInfo.operator_eq_iff_not_lt x y).1 he).2⟩
  · intro x y hx hy
    constructor
    · intro he
      exact ((StackTraceInfo.operator_eq_true_iff x y).1 he).2
    · rintro ⟨hc, hf⟩
      exact hgen x y hx hy hc hf

/-- C18, at two call contexts that differ only beyond the captured depth (the
63rd return address): the captured stacks compare equal. -/
theorem captured_stacks_compare_equal_witness :
    (List.replicate 62 7 ++ [8]).take MAX_STACK_DEPTH =
      (List.replicate 62 7 ++ [9]).take MAX_STACK_DEPTH ∧
    (StackTraceCapturer.Capture (List.replicate 62 7 ++ [8])).operator_eq
      (StackTraceCapturer.Capture (List.replicate 62 7 ++ [9])) = true :=
  ⟨by decide,
    (captured_stacks_compare_equal.2.1 (List.replicate 62 7 ++ [8])
      (List.replicate 62 7 ++ [9]) (by decide)).1⟩

/-- C19: every leak group built from a snapshot has a count of at least 1, so
the division `total / count` of the report never divides by zero, and the
average written is the floor of the total size divided by the count; the same
holds for the groups as rendered, after sorting. -/
theorem group_average_is_floor (p : Platform) (hs : IsStdSort p.sort MemoryTracer.sortComp)
    (snapshot : List (Nat × AllocationInfo)) (hne : snapshot ≠ [])
    (hsz : snapshot.length < 2 ^ 64) :
    MemoryTracer.buildLeakGroups snapshot ≠ [] ∧
    (∀ g ∈ MemoryTracer.buildLeakGroups snapshot,
      1 ≤ g.2.m_uCount ∧
      MemoryTracer.averageSize g.2 = g.2.m_uTotalSize / g.2.m_uCount ∧
      MemoryTracer.averageSize g.2 * g.2.m_uCount ≤ g.2.m_uTotalSize ∧
      g.2.m_uTotalSize < (MemoryTracer.averageSize g.2 + 1) * g.2.m_uCount) ∧
    (∀ g ∈ MemoryTracer.sortedGroups p snapshot,
      1 ≤ g.2.m_uCount ∧
      MemoryTracer.averageSize g.2 = g.2.m_uTotalSize / g.2.m_uCount ∧
      MemoryTracer.averageSize g.2 * g.2.m_uCount ≤ g.2.m_uTotalSize ∧
      g.2.m_uTotalSize < (MemoryTracer.averageSize g.2 + 1) * g.2.m_uCount) := by
  have hgroup : ∀ g ∈ MemoryTracer.buildLeakGroups snapshot,
      1 ≤ g.2.m_uCount ∧
      MemoryTracer.averageSize g.2 = g.2.m_uTotalSize / g.2.m_uCount ∧
      MemoryTracer.averageSize g.2 * g.2.m_uCount ≤ g.2.m_uTotalSize ∧
      g.2.m_uTotalSize < (MemoryTracer.averageSize g.2 + 1) * g.2.m_uCount := by
    intro g hg
    obtain ⟨hr, hc, -, -⟩ := MemoryTracer.group_facts snapshot g hg
    have hle : (recordsWithStack snapshot g.1).length ≤ snapshot.length := by
      unfold recordsWithStack
      exact List.length_filter_le _ _
    have hpos : 0 < (recordsWithStack snapshot g.1).length := List.length_pos.2 hr
    have hcount : 1 ≤ g.2.m_uCount := by
      rw [hc, Nat.mod_eq_of_lt (by omega)]
      exact hpos
    refine ⟨hcount, rfl, ?_, ?_⟩
    · exact Nat.div_mul_le_self _ _
    · unfold MemoryTracer.averageSize
      have h := Nat.lt_mul_div_succ g.2.m_uTotalSize (show 0 < g.2.m_uCount by omega)
      rw [Nat.mul_comm] at h
      exact h
  refine ⟨?_, hgroup, ?_⟩
  · cases snapshot with
    | nil => exact absurd rfl hne
    | cons r rest =>
      intro hnil
      have h1 := (MemoryTracer.find_buildLeakGroups (r :: rest) r.2.m_stStackTrace).1
      have hmem : r ∈ recordsWithStack (r :: rest) r.2.m_stStackTrace := by
        unfold recordsWithStack
        exact List.mem_filter.2 ⟨List.mem_cons_self _ _, operator_eq_refl _⟩
      rw [if_neg (List.ne_nil_of_mem hmem), hnil] at h1
      simp [StdMap.find] at h1
  · intro g hg
    exact hgroup g ((hs _).1.mem_iff.1 hg)

/-- C19, at a concrete snapshot: sizes 100 and 51 from one stack, 7 from another. -/
theorem group_average_is_floor_witness :
    IsStdSort refPlatform.sort MemoryTracer.sortComp ∧
    ([(16, AllocationInfo.mk 100 (StackTraceCapturer.Capture [7, 8])),
      (32, AllocationInfo.mk 7 (StackTraceCapturer.Capture [7, 9])),
      (48, AllocationInfo.mk 51 (StackTraceCapturer.Capture [7, 8]))] :
        List (Nat × AllocationInfo)) ≠ [] ∧
    ([(16, AllocationInfo.mk 100 (StackTraceCapturer.Capture [7, 8])),
      (32, AllocationInfo.mk 7 (StackTraceCapturer.Capture [7, 9])),
      (48, AllocationInfo.mk 51 (StackTraceCapturer.Capture [7, 8]))] :
        List (Nat × AllocationInfo)).length < 2 ^ 64 ∧
    MemoryTracer.buildLeakGroups
      [(16, AllocationInfo.mk 100 (StackTraceCapturer.Capture [7, 8])),
       (32, AllocationInfo.mk 7 (StackTraceCapturer.Capture [7, 9])),
       (48, AllocationInfo.mk 51 (StackTraceCapturer.Capture [7, 8]))] ≠ [] ∧
    (MemoryTracer.sortedGroups refPlatform
      [(16, AllocationInfo.mk 100 (StackTraceCapturer.Capture [7, 8])),
       (32, AllocationInfo.mk 7 (StackTraceCapturer.Capture [7, 9])),
       (48, AllocationInfo.mk 51 (StackTraceCapturer.Capture [7, 8]))]).map
        (fun g => (g.2.m_uCount, g.2.m_uTotalSize, MemoryTracer.averageSize g.2)) =
      [(2, 151, 75), (1, 7, 7)] :=
  ⟨insertionSort_isStdSort, by simp, by simp,
    (group_average_is_floor refPlatform insertionSort_isStdSort
      [(16, AllocationInfo.mk 100 (StackTraceCapturer.Capture [7, 8])),
       (32, AllocationInfo.mk 7 (StackTraceCapturer.Capture [7, 9])),
       (48, AllocationInfo.mk 51 (StackTraceCapturer.Capture [7, 8]))]
      (by simp) (by simp)).1,
    by decide⟩
end Utils
end HSLL
